import Mathlib

/-!
Shallow embedding of the PySweeper-4 layout core (`pysweep/box.py` and the
fixed-size leaves of `pysweep/display.py`).

Sizes, offsets and expansion factors are modelled as `Int` (Python integers).
A raising method is modelled as returning the (possibly partially mutated)
state together with `Option LayoutError`; `none` means the call returned
normally, `some e` means the exception `e` escaped, the returned state being
the object state left behind by the partial mutations.
-/

/-- The two layout exceptions (`TooSmallError` in box.py, `NotExpandableError`
in display.py). -/
inductive LayoutError where
  | tooSmall
  | notExpandable
  deriving DecidableEq, Repr

/-- `Thickness` from box.py: four border thicknesses. -/
structure Thickness where
  b : Int
  l : Int
  r : Int
  t : Int
  deriving DecidableEq, Repr

/-- `Thickness.width = l + r`. -/
def Thickness.width (th : Thickness) : Int := th.l + th.r

/-- `Thickness.height = b + t`. -/
def Thickness.height (th : Thickness) : Int := th.b + th.t

/-- The state of a primitive `Box`: minimum size, current size, expansion
factor and the two-part offset. -/
structure Box where
  minwidth : Int
  minheight : Int
  width : Int
  height : Int
  expandfactor : Int
  localoffset_x : Int
  localoffset_y : Int
  parentoffset_x : Int
  parentoffset_y : Int
  deriving DecidableEq, Repr

/-- `Box.__init__(minwidth, minheight, expandfactor)`: current size starts at
the minimum, offsets at zero. -/
def boxInit (minwidth minheight expandfactor : Int) : Box :=
  { minwidth := minwidth, minheight := minheight,
    width := minwidth, height := minheight,
    expandfactor := expandfactor,
    localoffset_x := 0, localoffset_y := 0,
    parentoffset_x := 0, parentoffset_y := 0 }

/-- Placeholder box used only as the default of list lookups that Python would
crash on (empty rows never occur in constructed grids). -/
def defaultBox : Box := boxInit 0 0 1

/-- `offset_x` property: sum of local and parent x offsets. -/
def Box.offset_x (b : Box) : Int := b.localoffset_x + b.parentoffset_x

/-- `offset_y` property: sum of local and parent y offsets. -/
def Box.offset_y (b : Box) : Int := b.localoffset_y + b.parentoffset_y

/-- Python truthiness of an optional integer argument: `None` and `0` are
falsy. -/
def truthy : Option Int → Bool
  | none => false
  | some v => v != 0

/-- The per-axis guard in `Box.expand`:
`width >= self.minwidth if width else True`. -/
def axisOk (o : Option Int) (m : Int) : Bool :=
  if truthy o then decide (m ≤ o.getD 0) else true

/-- `Box.expand(width, height)`: raise `TooSmallError` unless each truthy
axis is at least the minimum, then assign each truthy axis. -/
def Box.expand (b : Box) (width height : Option Int) : Box × Option LayoutError :=
  if axisOk width b.minwidth && axisOk height b.minheight then
    ({ b with
        width := if truthy width then width.getD 0 else b.width,
        height := if truthy height then height.getD 0 else b.height }, none)
  else
    (b, some .tooSmall)

/-- `Box.set_parentoffset(x, y)`: assign the non-`None` axes.  (The trailing
`update_child_offsets()` is a no-op on a primitive box.) -/
def Box.set_parentoffset (b : Box) (x y : Option Int) : Box :=
  { b with
      parentoffset_x := x.getD b.parentoffset_x,
      parentoffset_y := y.getD b.parentoffset_y }

/-- Truncating division: `int(a / b)` applied to the exact ratio, as in the
grid's cumulative-expansion computation (for the nonnegative operands
produced by a valid expand this is the floor). -/
def pydiv (a b : Int) : Int := a.tdiv b

-- sanity examples (kept as theorems so the file stays executable-checkable)
example : pydiv 7 2 = 3 := by decide
example : pydiv (-7) 2 = -3 := by decide
example : (boxInit 10 10 1).expand (some 16) none =
    ({ boxInit 10 10 1 with width := 16 }, none) := by decide
example : (boxInit 10 10 1).expand (some 10) (some 9) =
    (boxInit 10 10 1, some .tooSmall) := by decide

/-! ### List helpers mirroring the Python idioms -/

/-- `itertools.accumulate`: running sums, one entry per input entry. -/
def accumulate : List Int → List Int
  | [] => []
  | x :: xs => x :: (accumulate xs).map (x + ·)

/-- `max(...)` over a nonempty list (zero on the empty list, which Python
would reject). -/
def listMax : List Int → Int
  | [] => 0
  | x :: xs => xs.foldl max x

/-- A `zip`-driven in-place update: elements of the first list beyond the
length of the second are kept unchanged, as Python's `zip` simply stops
iterating while the underlying objects survive. -/
def zipWithKeep (f : α → β → α) : List α → List β → List α
  | [], _ => []
  | l, [] => l
  | a :: as, b :: bs => f a b :: zipWithKeep f as bs

/-- Run a mutating call on each element in order, stopping at the first
element whose call raises; the elements after it keep their old state. -/
def threadMatch (f : Box → Box × Option LayoutError) :
    List Box → List Box × Option LayoutError
  | [] => ([], none)
  | b :: bs =>
    let r := f b
    match r.2 with
    | some err => (r.1 :: bs, some err)
    | none =>
      let rest := threadMatch f bs
      (r.1 :: rest.1, rest.2)

/-- One cumulative expansion value:
`int(excess * cumweight / totalweight)`. -/
def cumExpansion (excess total cumweight : Int) : Int :=
  pydiv (excess * cumweight) total

/-- The per-bucket expansions produced by the cumulative-floor rule: each
bucket gets the difference of consecutive cumulative expansions, `prev`
being the cumulative expansion already handed out. -/
def expansionsFrom (excess total : Int) : Int → List Int → List Int
  | _, [] => []
  | prev, cw :: cws =>
    (cumExpansion excess total cw - prev) ::
      expansionsFrom excess total (cumExpansion excess total cw) cws

/-- Cons a row onto the front of each column, truncating to the shorter of
the two (Python `zip` truncation). -/
def consRow : List Box → List (List Box) → List (List Box)
  | [], _ => []
  | _, [] => []
  | b :: bs, col :: cols => (b :: col) :: consRow bs cols

/-- `zip(*subboxes)`: the list of columns of a (rectangular) row table. -/
def colsOf : List (List Box) → List (List Box)
  | [] => []
  | [r] => r.map (fun b => [b])
  | r :: rs => consRow r (colsOf rs)

/-! ### GridBox -/

/-- The state of a `GridBox`: the row-major child table, the per-axis factor
lists with their accumulated forms, the construction-time column widths and
row heights, and the own `Box` state. -/
structure GridBox where
  subboxes : List (List Box)
  colfactors : List Int
  rowfactors : List Int
  colwidths : List Int
  rowheights : List Int
  cumcolfactors : List Int
  cumrowfactors : List Int
  sumcolfactors : Int
  sumrowfactors : Int
  box : Box
  deriving DecidableEq, Repr

/-- `GridBox.update_child_offsets`: column left edges are the running sums of
the first row's widths, row top edges the running sums of the first column's
heights; every child's parent offset is the grid's own offset plus its
column/row edge. -/
def gridUCO (g : GridBox) : GridBox :=
  let cumw : List Int := 0 :: accumulate ((g.subboxes.headD []).map (fun b => b.width))
  let cumh : List Int := 0 :: accumulate (g.subboxes.map (fun row => (row.headD defaultBox).height))
  let place := fun (row : List Box) (oy : Int) =>
    zipWithKeep (fun b ox => b.set_parentoffset (some (g.box.offset_x + ox)) (some (g.box.offset_y + oy))) row cumw
  { g with subboxes := zipWithKeep place g.subboxes cumh }

/-- The column loop of `GridBox.expand`: walk the columns zipped with the
cumulative column factors, expanding every member of a column to its own
minimum width plus the column's expansion, stopping at the first raise. -/
def threadCols (excess total : Int) :
    Int → List (List Box) → List Int → List (List Box) × Option LayoutError
  | _, cols, [] => (cols, none)
  | _, [], _ => ([], none)
  | prev, col :: cols, cf :: cfs =>
    let cum := cumExpansion excess total cf
    let r := threadMatch (fun b => b.expand (some (b.minwidth + (cum - prev))) none) col
    match r.2 with
    | some err => (r.1 :: cols, some err)
    | none =>
      let rest := threadCols excess total cum cols cfs
      (r.1 :: rest.1, rest.2)

/-- The row loop of `GridBox.expand`, the height counterpart of
`threadCols`. -/
def threadRows (excess total : Int) :
    Int → List (List Box) → List Int → List (List Box) × Option LayoutError
  | _, rows, [] => (rows, none)
  | _, [], _ => ([], none)
  | prev, row :: rows, rf :: rfs =>
    let cum := cumExpansion excess total rf
    let r := threadMatch (fun b => b.expand none (some (b.minheight + (cum - prev)))) row
    match r.2 with
    | some err => (r.1 :: rows, some err)
    | none =>
      let rest := threadRows excess total cum rows rfs
      (r.1 :: rest.1, rest.2)

/-- The height half of `GridBox.expand` plus the final offset update; a zero
row-factor sum returns early, skipping the offset update. -/
def gridHeightBlock (height : Option Int) (g : GridBox) : GridBox × Option LayoutError :=
  match height with
  | none => (gridUCO g, none)
  | some h =>
    let excess := h - g.box.minheight
    if g.sumrowfactors = 0 then (g, none)
    else
      let r := threadRows excess g.sumrowfactors 0 g.subboxes g.cumrowfactors
      let g1 := { g with subboxes := r.1 }
      match r.2 with
      | some err => (g1, some err)
      | none => (gridUCO g1, none)

/-- `GridBox.expand(width, height)`: record the new size on the own box,
then distribute the width excess over the columns (unless the column factors
sum to zero, which returns at once), then the height excess over the rows
(unless the row factors sum to zero), then update child offsets. -/
def GridBox.expand (g : GridBox) (width height : Option Int) : GridBox × Option LayoutError :=
  let r := g.box.expand width height
  match r.2 with
  | some err => (g, some err)
  | none =>
    let g0 := { g with box := r.1 }
    match width with
    | none => gridHeightBlock height g0
    | some w =>
      let excess := w - g0.box.minwidth
      if g0.sumcolfactors = 0 then (g0, none)
      else
        let rc := threadCols excess g0.sumcolfactors 0 (colsOf g0.subboxes) g0.cumcolfactors
        let g1 := { g0 with subboxes := colsOf rc.1 }
        match rc.2 with
        | some err => (g1, some err)
        | none => gridHeightBlock height g1

/-- `GridBox.__init__`: compute the column widths and row heights as maxima
of the children's minima, accumulate the factor lists, match every column
and row member to the shared width/height (these expands cannot raise: each
target is at least the member's own minimum), and size the own box to the
sums; `Box.__init__` then runs the offset update.  A `none` factor list
defaults to all ones. -/
def gridInit (subboxes : List (List Box)) (colfactors rowfactors : Option (List Int)) :
    GridBox :=
  let cols := colsOf subboxes
  let cf := colfactors.getD (List.replicate cols.length 1)
  let rf := rowfactors.getD (List.replicate subboxes.length 1)
  let colwidths := cols.map (fun col => listMax (col.map (fun b => b.minwidth)))
  let rowheights := subboxes.map (fun row => listMax (row.map (fun b => b.minheight)))
  let cumcf := accumulate cf
  let cumrf := accumulate rf
  let cols1 := zipWithKeep (fun col w => col.map (fun b => (b.expand (some w) none).1)) cols colwidths
  let rows1 := colsOf cols1
  let rows2 := zipWithKeep (fun row h => row.map (fun b => (b.expand none (some h)).1)) rows1 rowheights
  gridUCO
    { subboxes := rows2, colfactors := cf, rowfactors := rf,
      colwidths := colwidths, rowheights := rowheights,
      cumcolfactors := cumcf, cumrowfactors := cumrf,
      sumcolfactors := cumcf.getLastD 0, sumrowfactors := cumrf.getLastD 0,
      box := boxInit colwidths.sum rowheights.sum 1 }

/-- The width each column resolves to under `expand(w, _)`: its
construction-time width plus its cumulative-floor expansion. -/
def resolvedColWidths (g : GridBox) (w : Int) : List Int :=
  List.zipWith (· + ·) g.colwidths
    (expansionsFrom (w - g.box.minwidth) g.sumcolfactors 0 g.cumcolfactors)

/-- The height each row resolves to under `expand(_, h)`. -/
def resolvedRowHeights (g : GridBox) (h : Int) : List Int :=
  List.zipWith (· + ·) g.rowheights
    (expansionsFrom (h - g.box.minheight) g.sumrowfactors 0 g.cumrowfactors)

/-- The relationships `GridBox.__init__` establishes between the cached
factor/width fields; `expand` never changes any of them. -/
def gridWF (g : GridBox) : Prop :=
  g.cumcolfactors = accumulate g.colfactors ∧
  g.sumcolfactors = (accumulate g.colfactors).getLastD 0 ∧
  g.box.minwidth = g.colwidths.sum ∧
  g.colfactors.length = g.colwidths.length ∧
  g.cumrowfactors = accumulate g.rowfactors ∧
  g.sumrowfactors = (accumulate g.rowfactors).getLastD 0 ∧
  g.box.minheight = g.rowheights.sum ∧
  g.rowfactors.length = g.rowheights.length

/-! ### LayerBox -/

/-- The state of a `LayerBox`. -/
structure LayerBox where
  subboxes : List Box
  matchsizes : Bool
  box : Box
  deriving DecidableEq, Repr

/-- `LayerBox.update_child_offsets`: every child shares the layer's own
offset. -/
def layerUCO (l : LayerBox) : LayerBox :=
  let placed := l.subboxes.map (fun b => b.set_parentoffset (some l.box.offset_x) (some l.box.offset_y))
  { l with subboxes := placed }

/-- `LayerBox.__init__`: own minima are the componentwise maxima; with
`matchsizes` every child is expanded to them (these expands cannot raise:
the maxima dominate each child's minima). -/
def layerInit (subboxes : List Box) (matchsizes : Bool) (expandfactor : Int) : LayerBox :=
  let box := boxInit (listMax (subboxes.map (fun b => b.minwidth)))
    (listMax (subboxes.map (fun b => b.minheight))) expandfactor
  let l := layerUCO { subboxes := subboxes, matchsizes := matchsizes, box := box }
  if matchsizes then
    let matched := l.subboxes.map (fun b => (b.expand (some box.minwidth) (some box.minheight)).1)
    { l with subboxes := matched }
  else l

/-- `LayerBox.expand(width, height)`: with `matchsizes` forward the same
arguments to every child first (stopping at the first raise, which leaves
the earlier children already resized), then apply to the own box. -/
def LayerBox.expand (l : LayerBox) (width height : Option Int) : LayerBox × Option LayoutError :=
  let step :=
    if l.matchsizes then
      let r := threadMatch (fun b => b.expand width height) l.subboxes
      ({ l with subboxes := r.1 }, r.2)
    else (l, none)
  match step.2 with
  | some err => (step.1, some err)
  | none =>
    let r := step.1.box.expand width height
    ({ step.1 with box := r.1 }, r.2)

/-! ### BorderBox -/

/-- The state of a `BorderBox`. -/
structure BorderBox where
  innerbox : Box
  thickness : Thickness
  box : Box
  deriving DecidableEq, Repr

/-- `BorderBox.update_child_offsets`: the inner box sits at the border's
offset shifted by the left/top thickness. -/
def borderUCO (s : BorderBox) : BorderBox :=
  let inner := s.innerbox.set_parentoffset (some (s.box.offset_x + s.thickness.l)) (some (s.box.offset_y + s.thickness.t))
  { s with innerbox := inner }

/-- `BorderBox.__init__`: own minima are the inner box's *current* size plus
the thickness extents. -/
def borderInit (innerbox : Box) (thickness : Thickness) (expandfactor : Int) : BorderBox :=
  borderUCO
    { innerbox := innerbox, thickness := thickness,
      box := boxInit (innerbox.width + thickness.width)
        (innerbox.height + thickness.height) expandfactor }

/-- `BorderBox.expand(width, height)`: shrink each truthy axis by the
thickness extent and forward to the inner box first, then apply the
unmodified arguments to the own box. -/
def BorderBox.expand (s : BorderBox) (width height : Option Int) :
    BorderBox × Option LayoutError :=
  let innerwidth := if truthy width then some (width.getD 0 - s.thickness.width) else none
  let innerheight := if truthy height then some (height.getD 0 - s.thickness.height) else none
  let ri := s.innerbox.expand innerwidth innerheight
  match ri.2 with
  | some err => (s, some err)
  | none =>
    let s1 := { s with innerbox := ri.1 }
    let rb := s1.box.expand width height
    ({ s1 with box := rb.1 }, rb.2)

/-! ### HSplitBox and VSplitBox -/

/-- The state of an `HSplitBox` (children stacked vertically). -/
structure HSplitBox where
  subboxes : List Box
  matchwidths : Bool
  box : Box
  deriving DecidableEq, Repr

/-- The state of a `VSplitBox` (children side by side). -/
structure VSplitBox where
  subboxes : List Box
  matchheights : Bool
  box : Box
  deriving DecidableEq, Repr

/-- The offset loop of `HSplitBox.update_child_offsets`: `acc` is the running
sum of the previous children's heights. -/
def hsplitOffsets (ox oy : Int) : Int → List Box → List Box
  | _, [] => []
  | acc, b :: bs =>
    b.set_parentoffset (some ox) (some (oy + acc)) :: hsplitOffsets ox oy (acc + b.height) bs

/-- `HSplitBox.update_child_offsets`. -/
def hsplitUCO (s : HSplitBox) : HSplitBox :=
  { s with subboxes := hsplitOffsets s.box.offset_x s.box.offset_y 0 s.subboxes }

/-- The offset loop of `VSplitBox.update_child_offsets`. -/
def vsplitOffsets (ox oy : Int) : Int → List Box → List Box
  | _, [] => []
  | acc, b :: bs =>
    b.set_parentoffset (some (ox + acc)) (some oy) :: vsplitOffsets ox oy (acc + b.width) bs

/-- `VSplitBox.update_child_offsets`. -/
def vsplitUCO (s : VSplitBox) : VSplitBox :=
  { s with subboxes := vsplitOffsets s.box.offset_x s.box.offset_y 0 s.subboxes }

/-- `HSplitBox.__init__`: own minimum is (max of minwidths, sum of
minheights); `Box.__init__` runs the offset update, then `matchwidths`
expands every child to the shared minimum width (cannot raise). -/
def hsplitInit (subboxes : List Box) (matchwidths : Bool) (expandfactor : Int) : HSplitBox :=
  let box := boxInit (listMax (subboxes.map (fun b => b.minwidth)))
    ((subboxes.map (fun b => b.minheight)).sum) expandfactor
  let s := hsplitUCO { subboxes := subboxes, matchwidths := matchwidths, box := box }
  if matchwidths then
    { s with subboxes := s.subboxes.map (fun b => (b.expand (some box.minwidth) none).1) }
  else s

/-- `VSplitBox.__init__`: own minimum is (sum of minwidths, max of
minheights); `matchheights` expands every child to the shared minimum
height (cannot raise). -/
def vsplitInit (subboxes : List Box) (matchheights : Bool) (expandfactor : Int) : VSplitBox :=
  let box := boxInit ((subboxes.map (fun b => b.minwidth)).sum)
    (listMax (subboxes.map (fun b => b.minheight))) expandfactor
  let s := vsplitUCO { subboxes := subboxes, matchheights := matchheights, box := box }
  if matchheights then
    { s with subboxes := s.subboxes.map (fun b => (b.expand none (some box.minheight)).1) }
  else s

/-- The height-distribution loop shared by `HSplitBox.expand`: children
zipped with the cumulative expand factors. -/
def threadDistribH (excess total : Int) : Int → List Box → List Int → List Box × Option LayoutError
  | _, bs, [] => (bs, none)
  | _, [], _ => ([], none)
  | prev, b :: bs, cf :: cfs =>
    let cum := cumExpansion excess total cf
    let r := b.expand none (some (b.minheight + (cum - prev)))
    match r.2 with
    | some err => (r.1 :: bs, some err)
    | none =>
      let rest := threadDistribH excess total cum bs cfs
      (r.1 :: rest.1, rest.2)

/-- The width-distribution loop of `VSplitBox.expand`. -/
def threadDistribW (excess total : Int) : Int → List Box → List Int → List Box × Option LayoutError
  | _, bs, [] => (bs, none)
  | _, [], _ => ([], none)
  | prev, b :: bs, cf :: cfs =>
    let cum := cumExpansion excess total cf
    let r := b.expand (some (b.minwidth + (cum - prev))) none
    match r.2 with
    | some err => (r.1 :: bs, some err)
    | none =>
      let rest := threadDistribW excess total cum bs cfs
      (r.1 :: rest.1, rest.2)

/-- The `if height:` tail of `HSplitBox.expand` (box.py lines 415-437): a
truthy height is distributed over the children by cumulative expand factor
(a zero factor total returns early, skipping the offset update), then
offsets are updated. -/
def hsplitHeightPhase (height : Option Int) (s : HSplitBox) :
    HSplitBox × Option LayoutError :=
  if truthy height then
    let excess := height.getD 0 - s.box.minheight
    let cumef := accumulate (s.subboxes.map (fun b => b.expandfactor))
    let total := cumef.getLastD 0
    if total = 0 then (s, none)
    else
      let r := threadDistribH excess total 0 s.subboxes cumef
      let s2 := { s with subboxes := r.1 }
      match r.2 with
      | some err => (s2, some err)
      | none => (hsplitUCO s2, none)
  else (hsplitUCO s, none)

/-- `HSplitBox.expand(width, height)`: own box first, then `matchwidths`
forwards the width to every child, then the height phase. -/
def HSplitBox.expand (s : HSplitBox) (width height : Option Int) :
    HSplitBox × Option LayoutError :=
  let rb := s.box.expand width height
  match rb.2 with
  | some err => (s, some err)
  | none =>
    let s0 := { s with box := rb.1 }
    let step :=
      if s0.matchwidths then
        let r := threadMatch (fun b => b.expand width none) s0.subboxes
        ({ s0 with subboxes := r.1 }, r.2)
      else (s0, none)
    match step.2 with
    | some err => (step.1, some err)
    | none => hsplitHeightPhase height step.1

/-- The `if width:` tail of `VSplitBox.expand` (box.py lines 567-589). -/
def vsplitWidthPhase (width : Option Int) (s : VSplitBox) :
    VSplitBox × Option LayoutError :=
  if truthy width then
    let excess := width.getD 0 - s.box.minwidth
    let cumef := accumulate (s.subboxes.map (fun b => b.expandfactor))
    let total := cumef.getLastD 0
    if total = 0 then (s, none)
    else
      let r := threadDistribW excess total 0 s.subboxes cumef
      let s2 := { s with subboxes := r.1 }
      match r.2 with
      | some err => (s2, some err)
      | none => (vsplitUCO s2, none)
  else (vsplitUCO s, none)

/-- `VSplitBox.expand(width, height)`: own box first, then `matchheights`
forwards the height to every child, then the width phase. -/
def VSplitBox.expand (s : VSplitBox) (width height : Option Int) :
    VSplitBox × Option LayoutError :=
  let rb := s.box.expand width height
  match rb.2 with
  | some err => (s, some err)
  | none =>
    let s0 := { s with box := rb.1 }
    let step :=
      if s0.matchheights then
        let r := threadMatch (fun b => b.expand none height) s0.subboxes
        ({ s0 with subboxes := r.1 }, r.2)
      else (s0, none)
    match step.2 with
    | some err => (step.1, some err)
    | none => vsplitWidthPhase width step.1

/-! ### Fixed-size leaves from display.py -/

/-- `Sprite.__init__` sizes the box from its image and locks both axes
(`expandfactor=0`). -/
def spriteInit (w h : Int) : Box := boxInit w h 0

/-- `Sprite.expand`: raise `NotExpandableError` whenever a supplied axis
differs from the minimum (= fixed) size; otherwise do nothing at all. -/
def spriteExpand (b : Box) (width height : Option Int) : Box × Option LayoutError :=
  if (width.any fun v => b.minwidth != v) || (height.any fun v => b.minheight != v) then
    (b, some .notExpandable)
  else (b, none)

/-- `BorderCorner.expand`: both axes locked, same shape as `Sprite.expand`. -/
def borderCornerExpand (b : Box) (width height : Option Int) : Box × Option LayoutError :=
  if (width.any fun v => b.minwidth != v) || (height.any fun v => b.minheight != v) then
    (b, some .notExpandable)
  else (b, none)

/-- `BorderVEdge.expand`: the width axis is locked; an unlocked height is
delegated to `GridTile.expand`, i.e. `Box.expand` (the image bookkeeping has
no effect on geometry). -/
def borderVEdgeExpand (b : Box) (width height : Option Int) : Box × Option LayoutError :=
  if width.any fun v => b.minwidth != v then (b, some .notExpandable)
  else b.expand width height

/-- `BorderHEdge.expand`: the height axis is locked. -/
def borderHEdgeExpand (b : Box) (width height : Option Int) : Box × Option LayoutError :=
  if height.any fun v => b.minheight != v then (b, some .notExpandable)
  else b.expand width height

/-! ### Validation of the embedding against the doctests in box.py -/

/-- Current sizes of a list of boxes, as in the doctests' `b.size`. -/
def boxSizes (l : List Box) : List (Int × Int) := l.map (fun b => (b.width, b.height))

/-- Current offsets of a list of boxes, as in the doctests' `b.offset`. -/
def boxOffsets (l : List Box) : List (Int × Int) := l.map (fun b => (b.offset_x, b.offset_y))

example :
    let gb := gridInit [[boxInit 10 2 1, boxInit 20 1 1]] (some [1, 3]) none
    boxSizes (gb.subboxes.headD []) = [(10, 2), (20, 2)] ∧
      boxOffsets (gb.subboxes.headD []) = [(0, 0), (10, 0)] ∧
      (gb.box.width, gb.box.height) = (30, 2) := by decide

example :
    let gb := gridInit [[boxInit 10 2 1, boxInit 20 1 1]] (some [1, 3]) none
    let r := gb.expand (some 34) none
    r.2 = none ∧ boxSizes (r.1.subboxes.headD []) = [(11, 2), (23, 2)] ∧
      boxOffsets (r.1.subboxes.headD []) = [(0, 0), (11, 0)] ∧
      (r.1.box.width, r.1.box.height) = (34, 2) := by decide

example :
    let gb := gridInit [[boxInit 10 2 1, boxInit 20 1 1]] (some [1, 3]) none
    let r := (gb.expand (some 34) none).1.expand (some 33) none
    r.2 = none ∧ boxSizes (r.1.subboxes.headD []) = [(10, 2), (23, 2)] := by decide

example :
    let gb := gridInit [[boxInit 2 10 1], [boxInit 1 20 1]] none (some [1, 3])
    let r := gb.expand none (some 34)
    r.2 = none ∧ boxSizes (r.1.subboxes.flatten) = [(2, 11), (2, 23)] ∧
      boxOffsets (r.1.subboxes.flatten) = [(0, 0), (0, 11)] ∧
      (r.1.box.width, r.1.box.height) = (2, 34) := by decide

example :
    let hsb := hsplitInit [boxInit 2 10 1, boxInit 1 20 3, boxInit 3 30 0, boxInit 4 40 1] true 1
    let r := hsb.expand none (some 110)
    boxSizes hsb.subboxes = [(4, 10), (4, 20), (4, 30), (4, 40)] ∧
      boxOffsets hsb.subboxes = [(0, 0), (0, 10), (0, 30), (0, 60)] ∧
      r.2 = none ∧ boxSizes r.1.subboxes = [(4, 12), (4, 26), (4, 30), (4, 42)] ∧
      boxOffsets r.1.subboxes = [(0, 0), (0, 12), (0, 38), (0, 68)] ∧
      (r.1.box.width, r.1.box.height) = (4, 110) := by decide

example :
    let vsb := vsplitInit [boxInit 10 2 1, boxInit 20 1 0] true 1
    let r := vsb.expand (some 34) none
    r.2 = none ∧ boxSizes r.1.subboxes = [(14, 2), (20, 2)] ∧
      boxOffsets r.1.subboxes = [(0, 0), (14, 0)] := by decide

example :
    let lb := layerInit [boxInit 3 6 1, boxInit 4 5 1] true 1
    let r := lb.expand (some 10) (some 20)
    boxSizes lb.subboxes = [(4, 6), (4, 6)] ∧
      (lb.box.width, lb.box.height) = (4, 6) ∧
      r.2 = none ∧ boxSizes r.1.subboxes = [(10, 20), (10, 20)] := by decide

example :
    let bb := borderInit (boxInit 30 60 1) ⟨1, 2, 4, 8⟩ 1
    let r := bb.expand (some 40) (some 80)
    (bb.box.width, bb.box.height) = (36, 69) ∧
      (bb.innerbox.offset_x, bb.innerbox.offset_y) = (2, 8) ∧
      r.2 = none ∧ (r.1.innerbox.width, r.1.innerbox.height) = (34, 71) ∧
      (r.1.innerbox.offset_x, r.1.innerbox.offset_y) = (2, 8) ∧
      (r.1.box.width, r.1.box.height) = (40, 80) := by decide


/-! ### Small facts about `Box.expand` -/

theorem box_expand_err (b : Box) (w h : Option Int) :
    (b.expand w h).2 = none ∨ (b.expand w h).2 = some LayoutError.tooSmall := by
  unfold Box.expand
  split <;> simp

theorem box_expand_of_err (b : Box) (w h : Option Int) (e : LayoutError)
    (he : (b.expand w h).2 = some e) : (b.expand w h).1 = b := by
  by_cases hc : (axisOk w b.minwidth && axisOk h b.minheight) = true
  · simp [Box.expand, hc] at he
  · simp [Box.expand, hc]

theorem box_expand_statics (b : Box) (w h : Option Int) :
    (b.expand w h).1.minwidth = b.minwidth ∧
    (b.expand w h).1.minheight = b.minheight ∧
    (b.expand w h).1.expandfactor = b.expandfactor ∧
    (b.expand w h).1.localoffset_x = b.localoffset_x ∧
    (b.expand w h).1.localoffset_y = b.localoffset_y ∧
    (b.expand w h).1.parentoffset_x = b.parentoffset_x ∧
    (b.expand w h).1.parentoffset_y = b.parentoffset_y := by
  by_cases hc : (axisOk w b.minwidth && axisOk h b.minheight) = true <;>
    simp [Box.expand, hc]

theorem box_expand_fails_iff (b : Box) (w h : Option Int) :
    (b.expand w h).2 = some LayoutError.tooSmall ↔
      ¬ (axisOk w b.minwidth && axisOk h b.minheight) = true := by
  by_cases hc : (axisOk w b.minwidth && axisOk h b.minheight) = true <;>
    simp [Box.expand, hc]

theorem axisOk_false_iff (o : Option Int) (m : Int) :
    (¬ axisOk o m = true) ↔ ∃ v, o = some v ∧ v ≠ 0 ∧ v < m := by
  rcases o with _ | v
  · simp [axisOk, truthy]
  · by_cases hv : v = 0
    · subst hv; simp [axisOk, truthy]
    · simp [axisOk, truthy, hv, not_le]

theorem box_expand_ok_set_width (b : Box) (w h : Option Int) (v : Int)
    (hw : w = some v) (hv : v ≠ 0) (hok : (b.expand w h).2 = none) :
    (b.expand w h).1.width = v := by
  subst hw
  by_cases hc : (axisOk (some v) b.minwidth && axisOk h b.minheight) = true
  · simp [Box.expand, hc, truthy, hv]
  · simp [Box.expand, hc] at hok

theorem box_expand_keep_width (b : Box) (w h : Option Int)
    (hw : w = none ∨ w = some 0) : (b.expand w h).1.width = b.width := by
  have ht : truthy w = false := by rcases hw with hw | hw <;> simp [hw, truthy]
  by_cases hc : (axisOk w b.minwidth && axisOk h b.minheight) = true <;>
    simp [Box.expand, hc, ht]

theorem box_expand_ok_set_height (b : Box) (w h : Option Int) (v : Int)
    (hh : h = some v) (hv : v ≠ 0) (hok : (b.expand w h).2 = none) :
    (b.expand w h).1.height = v := by
  subst hh
  by_cases hc : (axisOk w b.minwidth && axisOk (some v) b.minheight) = true
  · simp [Box.expand, hc, truthy, hv]
  · simp [Box.expand, hc] at hok

theorem box_expand_keep_height (b : Box) (w h : Option Int)
    (hh : h = none ∨ h = some 0) : (b.expand w h).1.height = b.height := by
  have ht : truthy h = false := by rcases hh with hh | hh <;> simp [hh, truthy]
  by_cases hc : (axisOk w b.minwidth && axisOk h b.minheight) = true <;>
    simp [Box.expand, hc, ht]

/-- C4 (corrected): `Box.expand` raises `TooSmallError` exactly when some
supplied *nonzero* value is strictly below that axis's minimum; on a normal
return every supplied nonzero value is written to its axis while an absent
axis — or a supplied `0`, which Python truthiness treats like an absent
axis — is left unchanged; the four offset fields are never touched. -/
theorem box_expand_truthy_characterization (b : Box) (width height : Option Int) :
    ((b.expand width height).2 = some LayoutError.tooSmall ↔
      (∃ v, width = some v ∧ v ≠ 0 ∧ v < b.minwidth) ∨
      (∃ v, height = some v ∧ v ≠ 0 ∧ v < b.minheight)) ∧
    ((b.expand width height).2 = none →
      (∀ v, width = some v → v ≠ 0 → (b.expand width height).1.width = v) ∧
      ((width = none ∨ width = some 0) → (b.expand width height).1.width = b.width) ∧
      (∀ v, height = some v → v ≠ 0 → (b.expand width height).1.height = v) ∧
      ((height = none ∨ height = some 0) → (b.expand width height).1.height = b.height)) ∧
    (b.expand width height).1.localoffset_x = b.localoffset_x ∧
    (b.expand width height).1.localoffset_y = b.localoffset_y ∧
    (b.expand width height).1.parentoffset_x = b.parentoffset_x ∧
    (b.expand width height).1.parentoffset_y = b.parentoffset_y := by
  have stat := box_expand_statics b width height
  refine ⟨?_, ?_, stat.2.2.2.1, stat.2.2.2.2.1, stat.2.2.2.2.2.1, stat.2.2.2.2.2.2⟩
  · rw [box_expand_fails_iff, Bool.and_eq_true, not_and_or,
      axisOk_false_iff, axisOk_false_iff]
  · intro hok
    exact ⟨fun v hv hv0 => box_expand_ok_set_width b width height v hv hv0 hok,
      fun hw => box_expand_keep_width b width height hw,
      fun v hv hv0 => box_expand_ok_set_height b width height v hv hv0 hok,
      fun hh => box_expand_keep_height b width height hh⟩

/-- Witness for C4: on `Box(5, 5)`, `expand(4, None)` raises (4 is truthy and
below the minimum) while `expand(7, None)` sets the width to 7. -/
theorem box_expand_truthy_characterization_witness :
    ((boxInit 5 5 1).expand (some 4) none).2 = some LayoutError.tooSmall ∧
    ((boxInit 5 5 1).expand (some 7) none).1.width = 7 := by
  constructor
  · exact (box_expand_truthy_characterization (boxInit 5 5 1) (some 4) none).1.mpr
      (Or.inl ⟨4, rfl, by decide, by decide⟩)
  · exact ((box_expand_truthy_characterization (boxInit 5 5 1) (some 7) none).2.1
      (by decide)).1 7 rfl (by decide)

/-- Counterexample for C4 as stated: on `Box(5, 5)` the call `expand(0, None)`
supplies `0 < minwidth = 5`, yet it does not raise and leaves the width at 5
instead of setting it to 0 — Python's `if width:` treats `0` as absent. -/
theorem box_expand_zero_width_counterexample :
    ((boxInit 5 5 1).expand (some 0) none).2 = none ∧
    ((boxInit 5 5 1).expand (some 0) none).1 = boxInit 5 5 1 ∧
    (0 : Int) < (boxInit 5 5 1).minwidth := by decide

/-- C2 (corrected, positive part): the primitive `Box.expand` is atomic — a
raising call returns the box unchanged — and a `GridBox.expand` that fails
its own minimum check (the first statement, `Box.expand(self, ...)`) also
leaves the whole grid state unchanged. -/
theorem failing_box_expand_is_atomic (w h : Option Int) (b : Box) (g : GridBox)
    (e e2 : LayoutError) :
    ((b.expand w h).2 = some e → (b.expand w h).1 = b) ∧
    ((g.box.expand w h).2 = some e2 → g.expand w h = (g, some e2)) := by
  constructor
  · exact fun he => box_expand_of_err b w h e he
  · intro he
    simp [GridBox.expand, he]

/-- Witness for C2: `Box(10, 10).expand(7, None)` raises and returns the box
unchanged, and the same holds for a one-cell grid's own check. -/
theorem failing_box_expand_is_atomic_witness :
    ((boxInit 10 10 1).expand (some 7) none).1 = boxInit 10 10 1 ∧
    (gridInit [[boxInit 4 4 1]] none none).expand (some 2) none =
      (gridInit [[boxInit 4 4 1]] none none, some LayoutError.tooSmall) := by
  constructor
  · exact (failing_box_expand_is_atomic (some 7) none (boxInit 10 10 1)
      (gridInit [[boxInit 4 4 1]] none none) LayoutError.tooSmall LayoutError.tooSmall).1
      (by decide)
  · exact (failing_box_expand_is_atomic (some 2) none (boxInit 10 10 1)
      (gridInit [[boxInit 4 4 1]] none none) LayoutError.tooSmall LayoutError.tooSmall).2
      (by decide)

/-- Counterexample for C2 as stated: a `LayerBox` over children of minima
`(5,5)` and `(10,10)` (matched to `(10,10)` at construction) receives
`expand(7, None)`: the first child is resized to width 7, then the second
raises `TooSmallError` — the failing call has mutated part of the subtree. -/
theorem layer_expand_partial_counterexample :
    ((layerInit [boxInit 5 5 1, boxInit 10 10 1] true 1).expand (some 7) none).2 =
      some LayoutError.tooSmall ∧
    (((layerInit [boxInit 5 5 1, boxInit 10 10 1] true 1).expand
      (some 7) none).1.subboxes.headD defaultBox).width = 7 ∧
    ((layerInit [boxInit 5 5 1, boxInit 10 10 1] true 1).subboxes.headD defaultBox).width =
      10 := by decide

/-- C8 (corrected): `BorderBox.__init__` sizes its own minima from the inner
box's *current* width and height plus the thickness extents; this agrees
with "child minimum plus extents" exactly when the child is at its minimum
size. -/
theorem border_min_size (innerbox : Box) (thickness : Thickness) (ef : Int) :
    (borderInit innerbox thickness ef).box.minwidth =
      innerbox.width + (thickness.l + thickness.r) ∧
    (borderInit innerbox thickness ef).box.minheight =
      innerbox.height + (thickness.b + thickness.t) ∧
    (innerbox.width = innerbox.minwidth →
      (borderInit innerbox thickness ef).box.minwidth =
        innerbox.minwidth + (thickness.l + thickness.r)) ∧
    (innerbox.height = innerbox.minheight →
      (borderInit innerbox thickness ef).box.minheight =
        innerbox.minheight + (thickness.b + thickness.t)) := by
  refine ⟨rfl, rfl, ?_, ?_⟩ <;> intro hmin <;>
    simp [borderInit, borderUCO, boxInit, Thickness.width, Thickness.height, hmin]

/-- Witness for C8: the doctest border (`Thickness(1, 2, 4, 8)` around a
fresh `Box(30, 60)`) has minima `(36, 69)`. -/
theorem border_min_size_witness :
    (borderInit (boxInit 30 60 1) ⟨1, 2, 4, 8⟩ 1).box.minwidth = 30 + (2 + 4) ∧
    (borderInit (boxInit 30 60 1) ⟨1, 2, 4, 8⟩ 1).box.minheight = 60 + (1 + 8) := by
  exact ⟨((border_min_size (boxInit 30 60 1) ⟨1, 2, 4, 8⟩ 1).2.2.1 (by decide)),
    ((border_min_size (boxInit 30 60 1) ⟨1, 2, 4, 8⟩ 1).2.2.2 (by decide))⟩

/-- Counterexample for C8 as stated: wrap a box of minima `(10, 10)` that was
first expanded to `(20, 20)`; the border's `minwidth` is `20 + 2 + 4 = 26`,
not `10 + 2 + 4` as the claim requires. -/
theorem border_min_size_counterexample :
    (borderInit (((boxInit 10 10 1).expand (some 20) (some 20)).1) ⟨1, 2, 4, 8⟩ 1).box.minwidth ≠
      (((boxInit 10 10 1).expand (some 20) (some 20)).1).minwidth + 2 + 4 := by decide

/-- C5 (corrected): on an axis whose factors sum to zero, a larger requested
size leaves every child and every offset untouched — but the grid's *own*
size fields still take the requested values (the own-box assignment has
already happened), and when the zero axis is the width the early `return`
also skips the whole height distribution and the offset update. -/
theorem grid_zero_weight_axis :
    (∀ (g : GridBox) (w h : Int), g.sumcolfactors = 0 →
      g.box.minwidth ≤ w → w ≠ 0 → g.box.minheight ≤ h → h ≠ 0 →
      g.expand (some w) (some h) =
        ({ g with box := { g.box with width := w, height := h } }, none)) ∧
    (∀ (g : GridBox) (h : Int), g.sumrowfactors = 0 →
      g.box.minheight ≤ h → h ≠ 0 →
      g.expand none (some h) =
        ({ g with box := { g.box with height := h } }, none)) := by
  constructor
  · intro g w h hcol hw hw0 hh hh0
    have hok : (axisOk (some w) g.box.minwidth && axisOk (some h) g.box.minheight) = true := by
      simp [axisOk, truthy, hw, hh]
    simp [GridBox.expand, Box.expand, hok, truthy, hw0, hh0, hcol]
  · intro g h hrow hh hh0
    have hok : (axisOk none g.box.minwidth && axisOk (some h) g.box.minheight) = true := by
      simp [axisOk, truthy, hh]
    simp [GridBox.expand, Box.expand, hok, truthy, hh0, gridHeightBlock, hrow]

/-- Witness for C5 (amended): a one-cell grid with column factor 0 asked to
grow to `(5, 7)` records `(5, 7)` on itself and changes nothing else. -/
theorem grid_zero_weight_axis_witness :
    (gridInit [[boxInit 2 2 1]] (some [0]) (some [1])).expand (some 5) (some 7) =
      ({ gridInit [[boxInit 2 2 1]] (some [0]) (some [1]) with
          box := { (gridInit [[boxInit 2 2 1]] (some [0]) (some [1])).box with
                     width := 5, height := 7 } }, none) :=
  (grid_zero_weight_axis).1 (gridInit [[boxInit 2 2 1]] (some [0]) (some [1])) 5 7
    (by decide) (by decide) (by decide) (by decide) (by decide)

/-- Counterexample for C5 as stated: with column factors summing to 0 and
`expand(5, 7)`, the grid's own width becomes 5 — not its minimum 2 — and the
child's height stays 2, i.e. the height axis is *not* processed either. -/
theorem grid_zero_weight_counterexample :
    ((gridInit [[boxInit 2 2 1]] (some [0]) (some [1])).expand (some 5) (some 7)).2 = none ∧
    ((gridInit [[boxInit 2 2 1]] (some [0]) (some [1])).expand (some 5) (some 7)).1.box.width = 5 ∧
    (gridInit [[boxInit 2 2 1]] (some [0]) (some [1])).box.minwidth = 2 ∧
    ((((gridInit [[boxInit 2 2 1]] (some [0]) (some [1])).expand
        (some 5) (some 7)).1.subboxes.headD []).headD defaultBox).height = 2 := by decide

theorem box_expand_never_notExpandable (b : Box) (w h : Option Int) :
    (b.expand w h).2 ≠ some LayoutError.notExpandable := by
  rcases box_expand_err b w h with he | he <;> simp [he]

theorem lockedPair_cond_iff (b : Box) (width height : Option Int)
    (hbw : b.width = b.minwidth) (hbh : b.height = b.minheight) :
    ((width.any fun v => b.minwidth != v) || (height.any fun v => b.minheight != v)) = true ↔
      ((∃ v, width = some v ∧ v ≠ b.width) ∨ (∃ v, height = some v ∧ v ≠ b.height)) := by
  rcases width with _ | v <;> rcases height with _ | u <;>
    simp [Option.any, hbw, hbh] <;> omega

theorem lockedW_cond_iff (b : Box) (width : Option Int) (hbw : b.width = b.minwidth) :
    (width.any fun v => b.minwidth != v) = true ↔ (∃ v, width = some v ∧ v ≠ b.width) := by
  rcases width with _ | v <;> simp [Option.any, hbw] <;> omega

theorem lockedH_cond_iff (b : Box) (height : Option Int) (hbh : b.height = b.minheight) :
    (height.any fun v => b.minheight != v) = true ↔ (∃ v, height = some v ∧ v ≠ b.height) := by
  rcases height with _ | v <;> simp [Option.any, hbh] <;> omega

theorem vedge_keeps_width (b : Box) (width height : Option Int)
    (hbw : b.width = b.minwidth)
    (hc : ¬ (width.any fun v => b.minwidth != v) = true) :
    (b.expand width height).1.width = b.width := by
  rcases width with _ | v
  · exact box_expand_keep_width b none height (Or.inl rfl)
  · simp [Option.any] at hc
    by_cases hv : v = 0
    · exact box_expand_keep_width b (some v) height (Or.inr (by simp [hv]))
    · rcases box_expand_err b (some v) height with he | he
      · rw [box_expand_ok_set_width b (some v) height v rfl hv he, hbw, hc]
      · rw [box_expand_of_err b (some v) height LayoutError.tooSmall he]

theorem hedge_keeps_height (b : Box) (width height : Option Int)
    (hbh : b.height = b.minheight)
    (hc : ¬ (height.any fun v => b.minheight != v) = true) :
    (b.expand width height).1.height = b.height := by
  rcases height with _ | v
  · exact box_expand_keep_height b width none (Or.inl rfl)
  · simp [Option.any] at hc
    by_cases hv : v = 0
    · exact box_expand_keep_height b width (some v) (Or.inr (by simp [hv]))
    · rcases box_expand_err b width (some v) with he | he
      · rw [box_expand_ok_set_height b width (some v) v rfl hv he, hbh, hc]
      · rw [box_expand_of_err b width (some v) LayoutError.tooSmall he]

/-- C10 (confirmed): the fixed-size leaves raise `NotExpandableError` — never
`TooSmallError` for a locked axis — exactly when a supplied value for a
locked axis differs from that axis's current (= minimum) value, larger
values included; and the locked axes' sizes always survive the call
unchanged.  `Sprite` and `BorderCorner` lock both axes and never mutate at
all; `BorderVEdge` locks only the width, `BorderHEdge` only the height. -/
theorem locked_leaf_expand (b : Box) (width height : Option Int) :
    (b.width = b.minwidth → b.height = b.minheight →
      ((spriteExpand b width height).2 = some LayoutError.notExpandable ↔
        (∃ v, width = some v ∧ v ≠ b.width) ∨ (∃ v, height = some v ∧ v ≠ b.height)) ∧
      (spriteExpand b width height).1 = b) ∧
    (b.width = b.minwidth → b.height = b.minheight →
      ((borderCornerExpand b width height).2 = some LayoutError.notExpandable ↔
        (∃ v, width = some v ∧ v ≠ b.width) ∨ (∃ v, height = some v ∧ v ≠ b.height)) ∧
      (borderCornerExpand b width height).1 = b) ∧
    (b.width = b.minwidth →
      ((borderVEdgeExpand b width height).2 = some LayoutError.notExpandable ↔
        ∃ v, width = some v ∧ v ≠ b.width) ∧
      (borderVEdgeExpand b width height).1.width = b.width) ∧
    (b.height = b.minheight →
      ((borderHEdgeExpand b width height).2 = some LayoutError.notExpandable ↔
        ∃ v, height = some v ∧ v ≠ b.height) ∧
      (borderHEdgeExpand b width height).1.height = b.height) := by
  refine ⟨?_, ?_, ?_, ?_⟩
  · intro hbw hbh
    by_cases hc : ((width.any fun v => b.minwidth != v) ||
        (height.any fun v => b.minheight != v)) = true
    · exact ⟨by simp [spriteExpand, hc,
          (lockedPair_cond_iff b width height hbw hbh).mp hc],
        by simp [spriteExpand, hc]⟩
    · refine ⟨?_, by simp [spriteExpand, hc]⟩
      simp only [spriteExpand, if_neg hc]
      constructor
      · intro habs; exact absurd habs (by simp)
      · intro hr; exact absurd ((lockedPair_cond_iff b width height hbw hbh).mpr hr) hc
  · intro hbw hbh
    by_cases hc : ((width.any fun v => b.minwidth != v) ||
        (height.any fun v => b.minheight != v)) = true
    · exact ⟨by simp [borderCornerExpand, hc,
          (lockedPair_cond_iff b width height hbw hbh).mp hc],
        by simp [borderCornerExpand, hc]⟩
    · refine ⟨?_, by simp [borderCornerExpand, hc]⟩
      simp only [borderCornerExpand, if_neg hc]
      constructor
      · intro habs; exact absurd habs (by simp)
      · intro hr; exact absurd ((lockedPair_cond_iff b width height hbw hbh).mpr hr) hc
  · intro hbw
    by_cases hc : (width.any fun v => b.minwidth != v) = true
    · exact ⟨by simp [borderVEdgeExpand, hc, (lockedW_cond_iff b width hbw).mp hc],
        by simp [borderVEdgeExpand, hc]⟩
    · refine ⟨?_, ?_⟩
      · simp only [borderVEdgeExpand, if_neg hc]
        constructor
        · intro habs; exact absurd habs (box_expand_never_notExpandable b width height)
        · intro hr; exact absurd ((lockedW_cond_iff b width hbw).mpr hr) hc
      · simpa [borderVEdgeExpand, if_neg hc] using vedge_keeps_width b width height hbw hc
  · intro hbh
    by_cases hc : (height.any fun v => b.minheight != v) = true
    · exact ⟨by simp [borderHEdgeExpand, hc, (lockedH_cond_iff b height hbh).mp hc],
        by simp [borderHEdgeExpand, hc]⟩
    · refine ⟨?_, ?_⟩
      · simp only [borderHEdgeExpand, if_neg hc]
        constructor
        · intro habs; exact absurd habs (box_expand_never_notExpandable b width height)
        · intro hr; exact absurd ((lockedH_cond_iff b height hbh).mpr hr) hc
      · simpa [borderHEdgeExpand, if_neg hc] using hedge_keeps_height b width height hbh hc

/-- Witness for C10: a `5 × 7` sprite rejects growing to width 6 with
`NotExpandableError`, while a `BorderVEdge` of the same size accepts a
height change and keeps its width. -/
theorem locked_leaf_expand_witness :
    (spriteExpand (spriteInit 5 7) (some 6) none).2 = some LayoutError.notExpandable ∧
    (borderVEdgeExpand (spriteInit 5 7) (some 5) (some 9)).1.width = 5 := by
  constructor
  · exact ((locked_leaf_expand (spriteInit 5 7) (some 6) none).1 (by decide)
      (by decide)).1.mpr (Or.inl ⟨6, rfl, by decide⟩)
  · exact ((locked_leaf_expand (spriteInit 5 7) (some 5) (some 9)).2.2.1 (by decide)).2

/-! ### C1: the cumulative-floor reconciliation law -/

theorem accumulate_length (l : List Int) : (accumulate l).length = l.length := by
  induction l with
  | nil => rfl
  | cons x xs ih => simp [accumulate, ih]

theorem expansionsFrom_length (e t : Int) (cums : List Int) :
    ∀ prev, (expansionsFrom e t prev cums).length = cums.length := by
  induction cums with
  | nil => intro prev; rfl
  | cons c cs ih => intro prev; simp [expansionsFrom, ih]

theorem expansionsFrom_sum (e t : Int) (cums : List Int) :
    ∀ prev, cums ≠ [] →
      (expansionsFrom e t prev cums).sum = cumExpansion e t (cums.getLastD 0) - prev := by
  induction cums with
  | nil => intro prev hne; exact absurd rfl hne
  | cons c cs ih =>
    intro prev _
    rcases cs with _ | ⟨c2, rest⟩
    · simp [expansionsFrom]
    · have := ih (cumExpansion e t c) (by simp)
      simp only [expansionsFrom, List.sum_cons] at this ⊢
      rw [this]
      simp [List.getLastD_cons]

theorem sum_zipWith_add (xs : List Int) :
    ∀ ys : List Int, xs.length = ys.length →
      (List.zipWith (· + ·) xs ys).sum = xs.sum + ys.sum := by
  induction xs with
  | nil =>
    intro ys h
    cases ys with
    | nil => simp
    | cons y yt => simp at h
  | cons x xt ih =>
    intro ys h
    rcases ys with _ | ⟨y, yt⟩
    · simp at h
    · simp only [List.length_cons, Nat.add_right_cancel_iff] at h
      simp [List.zipWith, ih yt h]
      ring

theorem pydiv_self_mul (e t : Int) (ht : t ≠ 0) : pydiv (e * t) t = e := by
  simpa [pydiv] using Int.mul_tdiv_cancel e ht

/-- C1 (confirmed): for a grid in the state `__init__` establishes, whenever
both factor sums are nonzero and `minWidth ≤ w`, `minHeight ≤ h`, the
per-column expansions of the cumulative-floor rule telescope to exactly
`w − minWidth`, so the resolved column widths (construction width plus
expansion) sum to exactly `w`; symmetrically for rows and `h`. -/
theorem grid_expansions_reconcile (g : GridBox) (w h : Int)
    (hwf : gridWF g) (hcol : g.sumcolfactors ≠ 0) (hrow : g.sumrowfactors ≠ 0)
    (hw : g.box.minwidth ≤ w) (hh : g.box.minheight ≤ h) :
    (expansionsFrom (w - g.box.minwidth) g.sumcolfactors 0 g.cumcolfactors).sum =
      w - g.box.minwidth ∧
    (resolvedColWidths g w).sum = w ∧
    (expansionsFrom (h - g.box.minheight) g.sumrowfactors 0 g.cumrowfactors).sum =
      h - g.box.minheight ∧
    (resolvedRowHeights g h).sum = h := by
  obtain ⟨hcc, hsc, hmw, hlc, hcr, hsr, hmh, hlr⟩ := hwf
  have hcne : g.colfactors ≠ [] := by
    intro habs
    rw [habs] at hcc hsc
    simp [accumulate] at hcc hsc
    exact hcol hsc
  have hrne : g.rowfactors ≠ [] := by
    intro habs
    rw [habs] at hcr hsr
    simp [accumulate] at hcr hsr
    exact hrow hsr
  have hcumne : g.cumcolfactors ≠ [] := by
    rw [hcc]
    cases hc : g.colfactors
    · exact absurd hc hcne
    · simp [accumulate]
  have hrumne : g.cumrowfactors ≠ [] := by
    rw [hcr]
    cases hc : g.rowfactors
    · exact absurd hc hrne
    · simp [accumulate]
  have hlast_c : g.cumcolfactors.getLastD 0 = g.sumcolfactors := by
    rw [hcc, ← hsc]
  have hlast_r : g.cumrowfactors.getLastD 0 = g.sumrowfactors := by
    rw [hcr, ← hsr]
  have hsum_c :
      (expansionsFrom (w - g.box.minwidth) g.sumcolfactors 0 g.cumcolfactors).sum =
        w - g.box.minwidth := by
    rw [expansionsFrom_sum _ _ _ 0 hcumne, hlast_c]
    simp [cumExpansion, pydiv_self_mul _ _ hcol]
  have hsum_r :
      (expansionsFrom (h - g.box.minheight) g.sumrowfactors 0 g.cumrowfactors).sum =
        h - g.box.minheight := by
    rw [expansionsFrom_sum _ _ _ 0 hrumne, hlast_r]
    simp [cumExpansion, pydiv_self_mul _ _ hrow]
  refine ⟨hsum_c, ?_, hsum_r, ?_⟩
  · have hlen : g.colwidths.length =
        (expansionsFrom (w - g.box.minwidth) g.sumcolfactors 0 g.cumcolfactors).length := by
      rw [expansionsFrom_length, hcc, accumulate_length, ← hlc]
    rw [resolvedColWidths, sum_zipWith_add _ _ hlen, hsum_c, ← hmw]
    ring
  · have hlen : g.rowheights.length =
        (expansionsFrom (h - g.box.minheight) g.sumrowfactors 0 g.cumrowfactors).length := by
      rw [expansionsFrom_length, hcr, accumulate_length, ← hlr]
    rw [resolvedRowHeights, sum_zipWith_add _ _ hlen, hsum_r, ← hmh]
    ring

/-- `GridBox.__init__` establishes `gridWF` whenever supplied factor lists
have the right lengths (the default `None` lists always do). -/
theorem gridInit_establishes_wf (subboxes : List (List Box))
    (cf rf : Option (List Int))
    (hcf : ∀ l, cf = some l → l.length = (colsOf subboxes).length)
    (hrf : ∀ l, rf = some l → l.length = subboxes.length) :
    gridWF (gridInit subboxes cf rf) := by
  refine ⟨rfl, rfl, rfl, ?_, rfl, rfl, rfl, ?_⟩
  · show (cf.getD (List.replicate (colsOf subboxes).length 1)).length =
      ((colsOf subboxes).map _).length
    rcases cf with _ | l
    · simp
    · simp [hcf l rfl]
  · show (rf.getD (List.replicate subboxes.length 1)).length =
      (subboxes.map _).length
    rcases rf with _ | l
    · simp
    · simp [hrf l rfl]

/-- Witness for C1: the doctest grid (`colfactors=[1,3]`, minima 30×2) at
`expand(34, 3)`: column expansions `[1, 3]` sum to 4 and the resolved
column widths `[11, 23]` sum to 34. -/
theorem grid_expansions_reconcile_witness :
    (expansionsFrom 4 4 0 (gridInit [[boxInit 10 2 1, boxInit 20 1 1]] (some [1, 3]) none).cumcolfactors).sum = 4 ∧
    (resolvedColWidths (gridInit [[boxInit 10 2 1, boxInit 20 1 1]] (some [1, 3]) none) 34).sum = 34 := by
  have h := grid_expansions_reconcile
    (gridInit [[boxInit 10 2 1, boxInit 20 1 1]] (some [1, 3]) none) 34 3
    (gridInit_establishes_wf _ _ _ (by intro l hl; cases hl; decide)
      (by intro l hl; cases hl))
    (by decide) (by decide) (by decide) (by decide)
  exact ⟨h.1, h.2.1⟩

/-! ### C3: idempotence of `expand` with no arguments / the current size -/

theorem box_expand_none_none (b : Box) : b.expand none none = (b, none) := rfl

theorem box_expand_current (b : Box) (hw : b.minwidth ≤ b.width)
    (hh : b.minheight ≤ b.height) :
    b.expand (some b.width) (some b.height) = (b, none) := by
  have hok : (axisOk (some b.width) b.minwidth &&
      axisOk (some b.height) b.minheight) = true := by
    simp [axisOk, truthy, hw, hh]
  simp [Box.expand, hok, truthy]

theorem threadMatch_id (f : Box → Box × Option LayoutError)
    (hf : ∀ b, f b = (b, none)) (bs : List Box) : threadMatch f bs = (bs, none) := by
  induction bs with
  | nil => rfl
  | cons b bt ih => simp [threadMatch, hf, ih]

theorem set_parentoffset_size (b : Box) (x y : Option Int) :
    (b.set_parentoffset x y).width = b.width ∧
    (b.set_parentoffset x y).height = b.height := ⟨rfl, rfl⟩

theorem map_zipWithKeep {α β γ : Type} (f : α → β → α) (proj : α → γ)
    (hf : ∀ a b, proj (f a b) = proj a) :
    ∀ (l : List α) (c : List β), (zipWithKeep f l c).map proj = l.map proj := by
  intro l
  induction l with
  | nil => intro c; cases c <;> rfl
  | cons a at_ ih =>
    intro c
    cases c with
    | nil => rfl
    | cons b bt => simp [zipWithKeep, hf, ih]

theorem zipWithKeep_idem {α β : Type} (f : α → β → α)
    (hf : ∀ a b, f (f a b) b = f a b) :
    ∀ (l : List α) (c : List β), zipWithKeep f (zipWithKeep f l c) c = zipWithKeep f l c := by
  intro l
  induction l with
  | nil => intro c; cases c <;> rfl
  | cons a at_ ih =>
    intro c
    cases c with
    | nil => rfl
    | cons b bt => simp [zipWithKeep, hf, ih]

theorem gridUCO_box (g : GridBox) : (gridUCO g).box = g.box := rfl

theorem gridUCO_subboxes (g : GridBox) :
    (gridUCO g).subboxes =
      zipWithKeep
        (fun row oy =>
          zipWithKeep (fun b ox =>
            b.set_parentoffset (some (g.box.offset_x + ox)) (some (g.box.offset_y + oy))) row
            (0 :: accumulate ((g.subboxes.headD []).map fun b => b.width)))
        g.subboxes
        (0 :: accumulate (g.subboxes.map fun row => (row.headD defaultBox).height)) := rfl

theorem gridUCO_subboxes_widths (g : GridBox) :
    (((gridUCO g).subboxes.headD []).map fun b => b.width) =
      ((g.subboxes.headD []).map fun b => b.width) := by
  rw [gridUCO_subboxes]
  cases hs : g.subboxes with
  | nil => rfl
  | cons r rs =>
    show ((zipWithKeep _ r _ :: _).headD []).map _ = _
    simp only [List.headD_cons]
    refine map_zipWithKeep _ _ ?_ r _
    intro a b
    rfl

theorem gridUCO_subboxes_heights (g : GridBox) :
    ((gridUCO g).subboxes.map fun row => (row.headD defaultBox).height) =
      (g.subboxes.map fun row => (row.headD defaultBox).height) := by
  rw [gridUCO_subboxes]
  refine map_zipWithKeep _ _ ?_ g.subboxes _
  intro row oy
  cases row <;> rfl

theorem gridUCO_idem (g : GridBox) : gridUCO (gridUCO g) = gridUCO g := by
  have hsub : (gridUCO (gridUCO g)).subboxes = (gridUCO g).subboxes := by
    rw [gridUCO_subboxes (gridUCO g), gridUCO_box, gridUCO_subboxes_widths,
      gridUCO_subboxes_heights, gridUCO_subboxes g]
    refine zipWithKeep_idem _ ?_ _ _
    intro row oy
    refine zipWithKeep_idem _ ?_ _ _
    intro b ox
    rfl
  calc gridUCO (gridUCO g)
      = { gridUCO g with subboxes := (gridUCO (gridUCO g)).subboxes } := rfl
    _ = { gridUCO g with subboxes := (gridUCO g).subboxes } := by rw [hsub]
    _ = gridUCO g := rfl

theorem grid_expand_none_none (g : GridBox) : g.expand none none = (gridUCO g, none) := by
  simp [GridBox.expand, box_expand_none_none, gridHeightBlock]

theorem layer_expand_none_none (l : LayerBox) : l.expand none none = (l, none) := by
  simp [LayerBox.expand, box_expand_none_none,
    threadMatch_id (fun b => (b, none)) (fun b => rfl)]

theorem border_expand_none_none (s : BorderBox) : s.expand none none = (s, none) := by
  simp [BorderBox.expand, truthy, box_expand_none_none]

theorem hsplitOffsets_idem (ox oy : Int) :
    ∀ (bs : List Box) (acc : Int),
      hsplitOffsets ox oy acc (hsplitOffsets ox oy acc bs) = hsplitOffsets ox oy acc bs := by
  intro bs
  induction bs with
  | nil => intro acc; rfl
  | cons b bt ih =>
    intro acc
    exact congrArg₂ List.cons rfl (ih (acc + b.height))

theorem vsplitOffsets_idem (ox oy : Int) :
    ∀ (bs : List Box) (acc : Int),
      vsplitOffsets ox oy acc (vsplitOffsets ox oy acc bs) = vsplitOffsets ox oy acc bs := by
  intro bs
  induction bs with
  | nil => intro acc; rfl
  | cons b bt ih =>
    intro acc
    exact congrArg₂ List.cons rfl (ih (acc + b.width))

theorem hsplitUCO_box (s : HSplitBox) : (hsplitUCO s).box = s.box := rfl

theorem hsplitUCO_subboxes (s : HSplitBox) :
    (hsplitUCO s).subboxes = hsplitOffsets s.box.offset_x s.box.offset_y 0 s.subboxes := rfl

theorem hsplitUCO_idem (s : HSplitBox) : hsplitUCO (hsplitUCO s) = hsplitUCO s := by
  have hsub : (hsplitUCO (hsplitUCO s)).subboxes = (hsplitUCO s).subboxes := by
    rw [hsplitUCO_subboxes (hsplitUCO s), hsplitUCO_box, hsplitUCO_subboxes s]
    exact hsplitOffsets_idem _ _ s.subboxes 0
  calc hsplitUCO (hsplitUCO s)
      = { hsplitUCO s with subboxes := (hsplitUCO (hsplitUCO s)).subboxes } := rfl
    _ = { hsplitUCO s with subboxes := (hsplitUCO s).subboxes } := by rw [hsub]
    _ = hsplitUCO s := rfl

theorem vsplitUCO_box (s : VSplitBox) : (vsplitUCO s).box = s.box := rfl

theorem vsplitUCO_subboxes (s : VSplitBox) :
    (vsplitUCO s).subboxes = vsplitOffsets s.box.offset_x s.box.offset_y 0 s.subboxes := rfl

theorem vsplitUCO_idem (s : VSplitBox) : vsplitUCO (vsplitUCO s) = vsplitUCO s := by
  have hsub : (vsplitUCO (vsplitUCO s)).subboxes = (vsplitUCO s).subboxes := by
    rw [vsplitUCO_subboxes (vsplitUCO s), vsplitUCO_box, vsplitUCO_subboxes s]
    exact vsplitOffsets_idem _ _ s.subboxes 0
  calc vsplitUCO (vsplitUCO s)
      = { vsplitUCO s with subboxes := (vsplitUCO (vsplitUCO s)).subboxes } := rfl
    _ = { vsplitUCO s with subboxes := (vsplitUCO s).subboxes } := by rw [hsub]
    _ = vsplitUCO s := rfl

theorem hsplit_expand_none_none (s : HSplitBox) : s.expand none none = (hsplitUCO s, none) := by
  simp [HSplitBox.expand, hsplitHeightPhase, box_expand_none_none, truthy,
    threadMatch_id (fun b => (b, none)) (fun b => rfl)]

theorem vsplit_expand_none_none (s : VSplitBox) : s.expand none none = (vsplitUCO s, none) := by
  simp [VSplitBox.expand, vsplitWidthPhase, box_expand_none_none, truthy,
    threadMatch_id (fun b => (b, none)) (fun b => rfl)]

/-- C3 (corrected): `expand(None, None)` leaves every box type unchanged
(composites re-run their offset update, of which every constructed state is
a fixed point — the update is idempotent); `expand` at the current size is
idempotent for the primitive `Box`; for `GridBox` it is *not*: the
counterexample shows a child being re-derived to its own minimum. -/
theorem expand_noop_idempotent :
    (∀ b : Box, b.expand none none = (b, none)) ∧
    (∀ b : Box, b.minwidth ≤ b.width → b.minheight ≤ b.height →
      b.expand (some b.width) (some b.height) = (b, none)) ∧
    (∀ g : GridBox, gridUCO g = g → g.expand none none = (g, none)) ∧
    (∀ g : GridBox, gridUCO (gridUCO g) = gridUCO g) ∧
    (∀ l : LayerBox, l.expand none none = (l, none)) ∧
    (∀ s : BorderBox, s.expand none none = (s, none)) ∧
    (∀ s : HSplitBox, hsplitUCO s = s → s.expand none none = (s, none)) ∧
    (∀ s : HSplitBox, hsplitUCO (hsplitUCO s) = hsplitUCO s) ∧
    (∀ s : VSplitBox, vsplitUCO s = s → s.expand none none = (s, none)) ∧
    (∀ s : VSplitBox, vsplitUCO (vsplitUCO s) = vsplitUCO s) := by
  refine ⟨box_expand_none_none, box_expand_current, ?_, gridUCO_idem,
    layer_expand_none_none, border_expand_none_none, ?_, hsplitUCO_idem, ?_, vsplitUCO_idem⟩
  · intro g hg
    rw [grid_expand_none_none, hg]
  · intro s hs
    rw [hsplit_expand_none_none, hs]
  · intro s hs
    rw [vsplit_expand_none_none, hs]

/-- Witness for C3 (amended): a fresh `Box(3, 4)` and the doctest grid are
fixed by the no-argument and current-size calls. -/
theorem expand_noop_idempotent_witness :
    (boxInit 3 4 1).expand none none = (boxInit 3 4 1, none) ∧
    (boxInit 3 4 1).expand (some 3) (some 4) = (boxInit 3 4 1, none) ∧
    (gridInit [[boxInit 10 2 1, boxInit 20 1 1]] (some [1, 3]) none).expand none none =
      (gridInit [[boxInit 10 2 1, boxInit 20 1 1]] (some [1, 3]) none, none) := by
  refine ⟨expand_noop_idempotent.1 (boxInit 3 4 1), ?_, ?_⟩
  · exact expand_noop_idempotent.2.1 (boxInit 3 4 1) (by decide) (by decide)
  · exact expand_noop_idempotent.2.2.1
      (gridInit [[boxInit 10 2 1, boxInit 20 1 1]] (some [1, 3]) none) (by decide)

/-- Counterexample for C3 as stated: a two-row, one-column grid over children
of minima 5 and 10 (both matched to width 10 at construction) re-derives the
first child's width to `5 + 0 = 5` when `expand` is called with the grid's
own current size `(10, 15)` — a successful current-size expand that changes
the subtree. -/
theorem grid_expand_current_size_counterexample :
    ((gridInit [[boxInit 5 5 1], [boxInit 10 10 1]] none none).expand
        (some (gridInit [[boxInit 5 5 1], [boxInit 10 10 1]] none none).box.width)
        (some (gridInit [[boxInit 5 5 1], [boxInit 10 10 1]] none none).box.height)).2 =
      none ∧
    ((gridInit [[boxInit 5 5 1], [boxInit 10 10 1]] none none).expand
        (some (gridInit [[boxInit 5 5 1], [boxInit 10 10 1]] none none).box.width)
        (some (gridInit [[boxInit 5 5 1], [boxInit 10 10 1]] none none).box.height)).1 ≠
      gridInit [[boxInit 5 5 1], [boxInit 10 10 1]] none none ∧
    ((((gridInit [[boxInit 5 5 1], [boxInit 10 10 1]] none none).expand
        (some (gridInit [[boxInit 5 5 1], [boxInit 10 10 1]] none none).box.width)
        (some (gridInit [[boxInit 5 5 1], [boxInit 10 10 1]] none none).box.height)).1.subboxes.headD
        []).headD defaultBox).width = 5 ∧
    (((gridInit [[boxInit 5 5 1], [boxInit 10 10 1]] none none).subboxes.headD
        []).headD defaultBox).width = 10 := by decide

/-! ### C6: grid child offsets -/

theorem zipWithKeep_getD {α β : Type} (f : α → β → α) (d : α) (e : β) :
    ∀ (l : List α) (c : List β) (i : Nat), i < l.length → i < c.length →
      (zipWithKeep f l c).getD i d = f (l.getD i d) (c.getD i e) := by
  intro l
  induction l with
  | nil => intro c i hi _; simp at hi
  | cons a at_ ih =>
    intro c i hi hc
    cases c with
    | nil => simp at hc
    | cons b bt =>
      cases i with
      | zero => rfl
      | succ j =>
        simp only [zipWithKeep, List.getD_cons_succ]
        exact ih bt j (by simpa using hi) (by simpa using hc)

theorem getD_map_add (w : Int) (l : List Int) :
    ∀ k, k < l.length → (l.map (w + ·)).getD k 0 = w + l.getD k 0 := by
  induction l with
  | nil => intro k hk; simp at hk
  | cons x xt ih =>
    intro k hk
    cases k with
    | zero => rfl
    | succ j =>
      simp only [List.map_cons, List.getD_cons_succ]
      exact ih j (by simpa using hk)

theorem accumulate_getD (ws : List Int) :
    ∀ j, j < ws.length → (accumulate ws).getD j 0 = (ws.take (j + 1)).sum := by
  induction ws with
  | nil => intro j hj; simp at hj
  | cons w wt ih =>
    intro j hj
    cases j with
    | zero => simp [accumulate]
    | succ k =>
      have hk : k < wt.length := by simpa using hj
      simp only [accumulate, List.getD_cons_succ, List.take_succ_cons, List.sum_cons]
      rw [getD_map_add w _ k (by simpa [accumulate_length] using hk), ih k hk]

theorem cum_getD (ws : List Int) (i : Nat) (hi : i ≤ ws.length) :
    (0 :: accumulate ws).getD i 0 = (ws.take i).sum := by
  cases i with
  | zero => rfl
  | succ j =>
    simp only [List.getD_cons_succ]
    exact accumulate_getD ws j (by omega)

theorem offset_x_set_parentoffset (b : Box) (x y : Int) :
    (b.set_parentoffset (some x) (some y)).offset_x = b.localoffset_x + x := rfl

theorem offset_y_set_parentoffset (b : Box) (x y : Int) :
    (b.set_parentoffset (some x) (some y)).offset_y = b.localoffset_y + y := rfl

/-- C6 (corrected): whenever the grid's offset update actually runs — at the
end of `__init__`, and at the end of every `expand` that is not cut short by
a zero-weight early return — the child in cell `(r, c)` (its own local
offsets being 0, the default) sits at the grid's offset plus the widths of
the first row's children in columns `< c` and the heights of the first
column's children in rows `< r`.  An `expand` that takes the zero-row-weight
early return skips the update and can leave these offsets stale. -/
theorem grid_child_offsets (g : GridBox) (r c : Nat)
    (hrect : ∀ row ∈ g.subboxes, row.length = (g.subboxes.headD []).length)
    (hloc : ∀ row ∈ g.subboxes, ∀ b ∈ row, b.localoffset_x = 0 ∧ b.localoffset_y = 0)
    (hr : r < g.subboxes.length)
    (hc : c < (g.subboxes.getD r []).length) :
    (((gridUCO g).subboxes.getD r []).getD c defaultBox).offset_x =
      g.box.offset_x + (((g.subboxes.headD []).map fun b => b.width).take c).sum ∧
    (((gridUCO g).subboxes.getD r []).getD c defaultBox).offset_y =
      g.box.offset_y + ((g.subboxes.map fun row => (row.headD defaultBox).height).take r).sum := by
  have hrowmem : g.subboxes.getD r [] ∈ g.subboxes := by
    rw [List.getD_eq_getElem g.subboxes [] hr]
    exact List.getElem_mem hr
  have hbmem : (g.subboxes.getD r []).getD c defaultBox ∈ g.subboxes.getD r [] := by
    rw [List.getD_eq_getElem _ defaultBox hc]
    exact List.getElem_mem hc
  have hlen_w : ((g.subboxes.headD []).map fun b => b.width).length =
      (g.subboxes.headD []).length := by simp
  have hlen_h : (g.subboxes.map fun row => (row.headD defaultBox).height).length =
      g.subboxes.length := by simp
  have hrowlen : (g.subboxes.getD r []).length = (g.subboxes.headD []).length :=
    hrect _ hrowmem
  have hrow :
      (gridUCO g).subboxes.getD r [] =
        zipWithKeep (fun b ox =>
          b.set_parentoffset
            (some (g.box.offset_x + ox))
            (some (g.box.offset_y +
              ((0 :: accumulate (g.subboxes.map fun row => (row.headD defaultBox).height)).getD r 0))))
          (g.subboxes.getD r [])
          (0 :: accumulate ((g.subboxes.headD []).map fun b => b.width)) := by
    rw [gridUCO_subboxes]
    exact zipWithKeep_getD _ [] 0 g.subboxes _ r hr (by simp [accumulate_length, hr.le]; omega)
  have hcell :
      ((gridUCO g).subboxes.getD r []).getD c defaultBox =
        ((g.subboxes.getD r []).getD c defaultBox).set_parentoffset
          (some (g.box.offset_x +
            ((0 :: accumulate ((g.subboxes.headD []).map fun b => b.width)).getD c 0)))
          (some (g.box.offset_y +
            ((0 :: accumulate (g.subboxes.map fun row => (row.headD defaultBox).height)).getD r 0))) := by
    rw [hrow]
    exact zipWithKeep_getD _ defaultBox 0 _ _ c hc
      (by simp only [List.length_cons, accumulate_length, hlen_w]; omega)
  obtain ⟨hlx, hly⟩ := hloc _ hrowmem _ hbmem
  have hcw : ((0 :: accumulate ((g.subboxes.headD []).map fun b => b.width)).getD c 0) =
      (((g.subboxes.headD []).map fun b => b.width).take c).sum := by
    refine cum_getD _ c ?_
    rw [hlen_w, ← hrowlen]
    omega
  have hch : ((0 :: accumulate (g.subboxes.map fun row => (row.headD defaultBox).height)).getD r 0) =
      ((g.subboxes.map fun row => (row.headD defaultBox).height).take r).sum := by
    refine cum_getD _ r ?_
    rw [hlen_h]
    omega
  rw [hcell]
  constructor
  · rw [offset_x_set_parentoffset, hlx, hcw, zero_add]
  · rw [offset_y_set_parentoffset, hly, hch, zero_add]

/-- Witness for C6 (amended): in the doctest grid after the offset update,
cell `(0, 1)` sits at the grid offset plus the first column's width. -/
theorem grid_child_offsets_witness :
    (((gridUCO (gridInit [[boxInit 10 2 1, boxInit 20 1 1]] (some [1, 3]) none)).subboxes.getD 0
        []).getD 1 defaultBox).offset_x =
      (gridInit [[boxInit 10 2 1, boxInit 20 1 1]] (some [1, 3]) none).box.offset_x +
        ((((gridInit [[boxInit 10 2 1, boxInit 20 1 1]] (some [1, 3]) none).subboxes.headD
            []).map fun b => b.width).take 1).sum :=
  (grid_child_offsets (gridInit [[boxInit 10 2 1, boxInit 20 1 1]] (some [1, 3]) none) 0 1
    (by decide) (by decide) (by decide) (by decide)).1

/-- A grid whose row factors sum to zero, for exercising the early return:
`GridBox([[Box(1,1), Box(1,1)]], colfactors=[1,1], rowfactors=[0])`. -/
def staleGrid : GridBox := gridInit [[boxInit 1 1 1, boxInit 1 1 1]] (some [1, 1]) (some [0])

/-- The state `staleGrid` is left in by the successful call `expand(4, 1)`. -/
def staleGridAfter : GridBox := (staleGrid.expand (some 4) (some 1)).1

/-- Counterexample for C6 as stated: after the *successful* `expand(4, 1)`
on `staleGrid`, the zero-row-weight early return has skipped
`update_child_offsets`: the second child still has `offset_x = 1` although
the grid's own offset is 0 and the resolved width of column 0 is now 2. -/
theorem grid_stale_offsets_counterexample :
    (staleGrid.expand (some 4) (some 1)).2 = none ∧
    ((staleGridAfter.subboxes.headD []).getD 1 defaultBox).offset_x = 1 ∧
    staleGridAfter.box.offset_x = 0 ∧
    (((staleGridAfter.subboxes.headD []).map (fun b => b.width)).take 1).sum = 2 := by
  decide

/-! ### C7: the minimum-size invariant -/

/-- The invariant of a primitive box: its size dominates its minima. -/
def boxInv (b : Box) : Prop := b.minwidth ≤ b.width ∧ b.minheight ≤ b.height

/-- The invariant of a grid: own box plus every child. -/
def gridInv (g : GridBox) : Prop :=
  boxInv g.box ∧ ∀ row ∈ g.subboxes, ∀ b ∈ row, boxInv b

/-- The invariant of a layer. -/
def layerInv (l : LayerBox) : Prop :=
  boxInv l.box ∧ ∀ b ∈ l.subboxes, boxInv b

/-- The invariant of a border box. -/
def borderInv (s : BorderBox) : Prop := boxInv s.box ∧ boxInv s.innerbox

/-- The invariant of an `HSplitBox`. -/
def hsplitInv (s : HSplitBox) : Prop :=
  boxInv s.box ∧ ∀ b ∈ s.subboxes, boxInv b

/-- The invariant of a `VSplitBox`. -/
def vsplitInv (s : VSplitBox) : Prop :=
  boxInv s.box ∧ ∀ b ∈ s.subboxes, boxInv b

theorem axisOk_le (o : Option Int) (m : Int) (ht : truthy o = true)
    (h : axisOk o m = true) : m ≤ o.getD 0 := by
  simp [axisOk, ht] at h
  exact h

theorem boxInv_boxInit (mw mh ef : Int) : boxInv (boxInit mw mh ef) :=
  ⟨le_refl _, le_refl _⟩

theorem boxInv_expand (b : Box) (w h : Option Int) (hb : boxInv b) :
    boxInv (b.expand w h).1 := by
  by_cases hc : (axisOk w b.minwidth && axisOk h b.minheight) = true
  · obtain ⟨h1, h2⟩ : axisOk w b.minwidth = true ∧ axisOk h b.minheight = true := by
      simpa using hc
    constructor
    · rw [(box_expand_statics b w h).1]
      simp only [Box.expand, if_pos hc]
      by_cases ht : truthy w = true
      · simpa [ht] using axisOk_le w b.minwidth ht h1
      · simp only [Bool.not_eq_true] at ht
        simpa [ht] using hb.1
    · rw [(box_expand_statics b w h).2.1]
      simp only [Box.expand, if_pos hc]
      by_cases ht : truthy h = true
      · simpa [ht] using axisOk_le h b.minheight ht h2
      · simp only [Bool.not_eq_true] at ht
        simpa [ht] using hb.2
  · simpa [Box.expand, hc] using hb

theorem boxInv_set_parentoffset (b : Box) (x y : Option Int) (hb : boxInv b) :
    boxInv (b.set_parentoffset x y) := hb

theorem threadMatch_inv (f : Box → Box × Option LayoutError)
    (hf : ∀ b, boxInv b → boxInv (f b).1) :
    ∀ bs, (∀ b ∈ bs, boxInv b) → ∀ b ∈ (threadMatch f bs).1, boxInv b := by
  intro bs
  induction bs with
  | nil => intro _ b hb; simp [threadMatch] at hb
  | cons x xt ih =>
    intro hbs b hb
    rcases hr : (f x).2 with _ | err
    · simp only [threadMatch, hr] at hb
      rcases List.mem_cons.mp hb with hb | hb
      · subst hb; exact hf x (hbs x (by simp))
      · exact ih (fun b hbm => hbs b (by simp [hbm])) b hb
    · simp only [threadMatch, hr] at hb
      rcases List.mem_cons.mp hb with hb | hb
      · subst hb; exact hf x (hbs x (by simp))
      · exact hbs b (by simp [hb])

theorem threadDistribH_inv (excess total : Int) :
    ∀ (bs : List Box) (cfs : List Int) (prev : Int), (∀ b ∈ bs, boxInv b) →
      ∀ b ∈ (threadDistribH excess total prev bs cfs).1, boxInv b := by
  intro bs
  induction bs with
  | nil => intro cfs prev _ b hb; cases cfs <;> simp [threadDistribH] at hb
  | cons x xt ih =>
    intro cfs prev hbs b hb
    cases cfs with
    | nil => exact hbs b (by simpa [threadDistribH] using hb)
    | cons cf cft =>
      rcases hr : (x.expand none (some (x.minheight + (cumExpansion excess total cf - prev)))).2 with _ | err
      · simp only [threadDistribH, hr] at hb
        rcases List.mem_cons.mp hb with hb | hb
        · subst hb; exact boxInv_expand _ _ _ (hbs x (by simp))
        · exact ih cft _ (fun b hbm => hbs b (by simp [hbm])) b hb
      · simp only [threadDistribH, hr] at hb
        rcases List.mem_cons.mp hb with hb | hb
        · subst hb; exact boxInv_expand _ _ _ (hbs x (by simp))
        · exact hbs b (by simp [hb])

theorem threadDistribW_inv (excess total : Int) :
    ∀ (bs : List Box) (cfs : List Int) (prev : Int), (∀ b ∈ bs, boxInv b) →
      ∀ b ∈ (threadDistribW excess total prev bs cfs).1, boxInv b := by
  intro bs
  induction bs with
  | nil => intro cfs prev _ b hb; cases cfs <;> simp [threadDistribW] at hb
  | cons x xt ih =>
    intro cfs prev hbs b hb
    cases cfs with
    | nil => exact hbs b (by simpa [threadDistribW] using hb)
    | cons cf cft =>
      rcases hr : (x.expand (some (x.minwidth + (cumExpansion excess total cf - prev))) none).2 with _ | err
      · simp only [threadDistribW, hr] at hb
        rcases List.mem_cons.mp hb with hb | hb
        · subst hb; exact boxInv_expand _ _ _ (hbs x (by simp))
        · exact ih cft _ (fun b hbm => hbs b (by simp [hbm])) b hb
      · simp only [threadDistribW, hr] at hb
        rcases List.mem_cons.mp hb with hb | hb
        · subst hb; exact boxInv_expand _ _ _ (hbs x (by simp))
        · exact hbs b (by simp [hb])

theorem threadCols_inv (excess total : Int) :
    ∀ (cols : List (List Box)) (cfs : List Int) (prev : Int),
      (∀ col ∈ cols, ∀ b ∈ col, boxInv b) →
      ∀ col ∈ (threadCols excess total prev cols cfs).1, ∀ b ∈ col, boxInv b := by
  intro cols
  induction cols with
  | nil => intro cfs prev _ col hcol; cases cfs <;> simp [threadCols] at hcol
  | cons c ct ih =>
    intro cfs prev hcols col hcol
    cases cfs with
    | nil => exact hcols col (by simpa [threadCols] using hcol)
    | cons cf cft =>
      have hhead : ∀ b ∈ (threadMatch
          (fun b => b.expand (some (b.minwidth + (cumExpansion excess total cf - prev))) none) c).1,
          boxInv b :=
        threadMatch_inv _ (fun b hb => boxInv_expand _ _ _ hb) c (hcols c (by simp))
      rcases hr : (threadMatch
          (fun b => b.expand (some (b.minwidth + (cumExpansion excess total cf - prev))) none) c).2
          with _ | err
      · simp only [threadCols, hr] at hcol
        rcases List.mem_cons.mp hcol with hcol | hcol
        · subst hcol; exact hhead
        · exact ih cft _ (fun col hm => hcols col (by simp [hm])) col hcol
      · simp only [threadCols, hr] at hcol
        rcases List.mem_cons.mp hcol with hcol | hcol
        · subst hcol; exact hhead
        · exact hcols col (by simp [hcol])

theorem threadRows_inv (excess total : Int) :
    ∀ (rows : List (List Box)) (rfs : List Int) (prev : Int),
      (∀ row ∈ rows, ∀ b ∈ row, boxInv b) →
      ∀ row ∈ (threadRows excess total prev rows rfs).1, ∀ b ∈ row, boxInv b := by
  intro rows
  induction rows with
  | nil => intro rfs prev _ row hrow; cases rfs <;> simp [threadRows] at hrow
  | cons r rt ih =>
    intro rfs prev hrows row hrow
    cases rfs with
    | nil => exact hrows row (by simpa [threadRows] using hrow)
    | cons rf rft =>
      have hhead : ∀ b ∈ (threadMatch
          (fun b => b.expand none (some (b.minheight + (cumExpansion excess total rf - prev)))) r).1,
          boxInv b :=
        threadMatch_inv _ (fun b hb => boxInv_expand _ _ _ hb) r (hrows r (by simp))
      rcases hr : (threadMatch
          (fun b => b.expand none (some (b.minheight + (cumExpansion excess total rf - prev)))) r).2
          with _ | err
      · simp only [threadRows, hr] at hrow
        rcases List.mem_cons.mp hrow with hrow | hrow
        · subst hrow; exact hhead
        · exact ih rft _ (fun row hm => hrows row (by simp [hm])) row hrow
      · simp only [threadRows, hr] at hrow
        rcases List.mem_cons.mp hrow with hrow | hrow
        · subst hrow; exact hhead
        · exact hrows row (by simp [hrow])

theorem consRow_mem {P : Box → Prop} :
    ∀ (r : List Box) (cols : List (List Box)),
      (∀ b ∈ r, P b) → (∀ col ∈ cols, ∀ b ∈ col, P b) →
      ∀ col ∈ consRow r cols, ∀ b ∈ col, P b := by
  intro r
  induction r with
  | nil => intro cols _ _ col hcol; simp [consRow] at hcol
  | cons x xt ih =>
    intro cols hr hcols col hcol
    cases cols with
    | nil => simp [consRow] at hcol
    | cons c ct =>
      simp only [consRow] at hcol
      rcases List.mem_cons.mp hcol with hceq | hcol
      · intro bb hbb
        rw [hceq] at hbb
        rcases List.mem_cons.mp hbb with hbeq | hbb
        · rw [hbeq]; exact hr x (by simp)
        · exact hcols c (by simp) bb hbb
      · exact ih ct (fun b2 hb2 => hr b2 (by simp [hb2]))
          (fun col2 hm => hcols col2 (by simp [hm])) col hcol

theorem colsOf_mem {P : Box → Prop} :
    ∀ (l : List (List Box)), (∀ row ∈ l, ∀ b ∈ row, P b) →
      ∀ col ∈ colsOf l, ∀ b ∈ col, P b := by
  intro l
  induction l with
  | nil => intro _ col hcol; simp [colsOf] at hcol
  | cons r rs ih =>
    intro hl col hcol
    cases rs with
    | nil =>
      simp only [colsOf] at hcol
      rcases List.mem_map.mp hcol with ⟨bx, hbx, hcoleq⟩
      intro b2 hb2
      rw [← hcoleq] at hb2
      rw [List.mem_singleton.mp hb2]
      exact hl r (by simp) bx hbx
    | cons r2 rt =>
      simp only [colsOf] at hcol
      exact consRow_mem r (colsOf (r2 :: rt)) (hl r (by simp))
        (ih (fun row hm => hl row (by simp [hm]))) col hcol

theorem zipWithKeep_mem {α β : Type} (f : α → β → α) (P : α → Prop)
    (hf : ∀ a b, P a → P (f a b)) :
    ∀ (l : List α) (c : List β), (∀ a ∈ l, P a) → ∀ a ∈ zipWithKeep f l c, P a := by
  intro l
  induction l with
  | nil => intro c hl a ha; cases c <;> simp [zipWithKeep] at ha
  | cons x xt ih =>
    intro c hl a ha
    cases c with
    | nil => exact hl a (by simpa [zipWithKeep] using ha)
    | cons y yt =>
      simp only [zipWithKeep] at ha
      rcases List.mem_cons.mp ha with ha | ha
      · subst ha; exact hf x y (hl x (by simp))
      · exact ih yt (fun a ham => hl a (by simp [ham])) a ha

theorem gridUCO_inv (g : GridBox) (hg : gridInv g) : gridInv (gridUCO g) := by
  refine ⟨hg.1, ?_⟩
  rw [gridUCO_subboxes]
  refine zipWithKeep_mem _ _ ?_ g.subboxes _ hg.2
  intro row oy hrow
  exact zipWithKeep_mem _ _ (fun b ox hb => boxInv_set_parentoffset _ _ _ hb) row _ hrow

theorem gridHeightBlock_inv (height : Option Int) (g : GridBox) (hg : gridInv g) :
    gridInv (gridHeightBlock height g).1 := by
  cases height with
  | none => exact gridUCO_inv g hg
  | some h =>
    by_cases hz : g.sumrowfactors = 0
    · simpa [gridHeightBlock, hz] using hg
    · have hrows := threadRows_inv (h - g.box.minheight) g.sumrowfactors
        g.subboxes g.cumrowfactors 0 hg.2
      rcases hr : (threadRows (h - g.box.minheight) g.sumrowfactors 0 g.subboxes
          g.cumrowfactors).2 with _ | err
      · simp only [gridHeightBlock, if_neg hz, hr]
        exact gridUCO_inv _ ⟨hg.1, hrows⟩
      · simp only [gridHeightBlock, if_neg hz, hr]
        exact ⟨hg.1, hrows⟩

theorem gridInv_expand (g : GridBox) (w h : Option Int) (hg : gridInv g) :
    gridInv (g.expand w h).1 := by
  rcases he : (g.box.expand w h).2 with _ | err
  case some => simpa [GridBox.expand, he] using hg
  case none =>
    have hbox : boxInv (g.box.expand w h).1 := boxInv_expand _ _ _ hg.1
    cases w with
    | none =>
      simp only [GridBox.expand, he]
      exact gridHeightBlock_inv h _ ⟨hbox, hg.2⟩
    | some wv =>
      by_cases hz : g.sumcolfactors = 0
      · simpa [GridBox.expand, he, hz] using ⟨hbox, hg.2⟩
      · have hcols := threadCols_inv (wv - (g.box.expand (some wv) h).1.minwidth)
          g.sumcolfactors (colsOf g.subboxes) g.cumcolfactors 0
          (colsOf_mem g.subboxes hg.2)
        have hrows2 := colsOf_mem _ hcols
        rcases hr : (threadCols (wv - (g.box.expand (some wv) h).1.minwidth)
            g.sumcolfactors 0 (colsOf g.subboxes) g.cumcolfactors).2 with _ | err
        · simp only [GridBox.expand, he, if_neg hz, hr]
          exact gridHeightBlock_inv h _ ⟨hbox, hrows2⟩
        · simp only [GridBox.expand, he, if_neg hz, hr]
          exact ⟨hbox, hrows2⟩

theorem mem_map_inv (f : Box → Box) (hf : ∀ b, boxInv b → boxInv (f b)) (l : List Box)
    (hl : ∀ b ∈ l, boxInv b) : ∀ b ∈ l.map f, boxInv b := by
  intro b hb
  rcases List.mem_map.mp hb with ⟨a, ha, rfl⟩
  exact hf a (hl a ha)

theorem gridInit_inv (subboxes : List (List Box)) (cf rf : Option (List Int))
    (hsub : ∀ row ∈ subboxes, ∀ b ∈ row, boxInv b) :
    gridInv (gridInit subboxes cf rf) := by
  have h1 : ∀ col ∈ zipWithKeep (fun col w => col.map (fun b => (b.expand (some w) none).1))
      (colsOf subboxes)
      ((colsOf subboxes).map (fun col => listMax (col.map (fun b => b.minwidth)))),
      ∀ b ∈ col, boxInv b := by
    refine zipWithKeep_mem _ _ ?_ _ _ (colsOf_mem _ hsub)
    intro col w hcol
    exact mem_map_inv _ (fun b hb => boxInv_expand _ _ _ hb) col hcol
  have h2 : ∀ row ∈ zipWithKeep (fun row h => row.map (fun b => (b.expand none (some h)).1))
      (colsOf (zipWithKeep (fun col w => col.map (fun b => (b.expand (some w) none).1))
        (colsOf subboxes)
        ((colsOf subboxes).map (fun col => listMax (col.map (fun b => b.minwidth))))))
      (subboxes.map (fun row => listMax (row.map (fun b => b.minheight)))),
      ∀ b ∈ row, boxInv b := by
    refine zipWithKeep_mem _ _ ?_ _ _ (colsOf_mem _ h1)
    intro row h hrow
    exact mem_map_inv _ (fun b hb => boxInv_expand _ _ _ hb) row hrow
  exact gridUCO_inv _ ⟨boxInv_boxInit _ _ _, h2⟩

theorem layerInit_inv (bs : List Box) (m : Bool) (ef : Int)
    (hbs : ∀ b ∈ bs, boxInv b) : layerInv (layerInit bs m ef) := by
  have hplaced : ∀ b ∈ bs.map (fun b => b.set_parentoffset
      (some (boxInit (listMax (bs.map (fun b => b.minwidth)))
        (listMax (bs.map (fun b => b.minheight))) ef).offset_x)
      (some (boxInit (listMax (bs.map (fun b => b.minwidth)))
        (listMax (bs.map (fun b => b.minheight))) ef).offset_y)), boxInv b :=
    mem_map_inv _ (fun b hb => boxInv_set_parentoffset _ _ _ hb) bs hbs
  cases m with
  | false => exact ⟨boxInv_boxInit _ _ _, hplaced⟩
  | true =>
    refine ⟨boxInv_boxInit _ _ _, ?_⟩
    exact mem_map_inv _ (fun b hb => boxInv_expand _ _ _ hb) _ hplaced

theorem layerInv_expand (l : LayerBox) (w h : Option Int) (hl : layerInv l) :
    layerInv (l.expand w h).1 := by
  by_cases hm : l.matchsizes = true
  · rcases ht : (threadMatch (fun b => b.expand w h) l.subboxes).2 with _ | err
    · simp only [LayerBox.expand, hm, if_true, ht]
      exact ⟨boxInv_expand _ _ _ hl.1,
        threadMatch_inv _ (fun b hb => boxInv_expand _ _ _ hb) _ hl.2⟩
    · simp only [LayerBox.expand, hm, if_true, ht]
      exact ⟨hl.1, threadMatch_inv _ (fun b hb => boxInv_expand _ _ _ hb) _ hl.2⟩
  · simp only [LayerBox.expand, hm, if_false, Bool.false_eq_true]
    exact ⟨boxInv_expand _ _ _ hl.1, hl.2⟩

theorem borderInit_inv (inner : Box) (th : Thickness) (ef : Int)
    (hi : boxInv inner) : borderInv (borderInit inner th ef) :=
  ⟨boxInv_boxInit _ _ _, boxInv_set_parentoffset _ _ _ hi⟩

theorem borderInv_expand (s : BorderBox) (w h : Option Int) (hs : borderInv s) :
    borderInv (s.expand w h).1 := by
  rcases hi : (s.innerbox.expand
      (if truthy w then some (w.getD 0 - s.thickness.width) else none)
      (if truthy h then some (h.getD 0 - s.thickness.height) else none)).2 with _ | err
  · simp only [BorderBox.expand, hi]
    exact ⟨boxInv_expand _ _ _ hs.1, boxInv_expand _ _ _ hs.2⟩
  · simp only [BorderBox.expand, hi]
    exact hs

theorem hsplitOffsets_inv (ox oy : Int) :
    ∀ (bs : List Box) (acc : Int), (∀ b ∈ bs, boxInv b) →
      ∀ b ∈ hsplitOffsets ox oy acc bs, boxInv b := by
  intro bs
  induction bs with
  | nil => intro acc _ b hb; simp [hsplitOffsets] at hb
  | cons x xt ih =>
    intro acc hbs b hb
    simp only [hsplitOffsets] at hb
    rcases List.mem_cons.mp hb with hb | hb
    · rw [hb]; exact boxInv_set_parentoffset _ _ _ (hbs x (by simp))
    · exact ih _ (fun b2 h2 => hbs b2 (by simp [h2])) b hb

theorem vsplitOffsets_inv (ox oy : Int) :
    ∀ (bs : List Box) (acc : Int), (∀ b ∈ bs, boxInv b) →
      ∀ b ∈ vsplitOffsets ox oy acc bs, boxInv b := by
  intro bs
  induction bs with
  | nil => intro acc _ b hb; simp [vsplitOffsets] at hb
  | cons x xt ih =>
    intro acc hbs b hb
    simp only [vsplitOffsets] at hb
    rcases List.mem_cons.mp hb with hb | hb
    · rw [hb]; exact boxInv_set_parentoffset _ _ _ (hbs x (by simp))
    · exact ih _ (fun b2 h2 => hbs b2 (by simp [h2])) b hb

theorem hsplitInit_inv (bs : List Box) (m : Bool) (ef : Int)
    (hbs : ∀ b ∈ bs, boxInv b) : hsplitInv (hsplitInit bs m ef) := by
  have hplaced := hsplitOffsets_inv
    (boxInit (listMax (bs.map (fun b => b.minwidth)))
      ((bs.map (fun b => b.minheight)).sum) ef).offset_x
    (boxInit (listMax (bs.map (fun b => b.minwidth)))
      ((bs.map (fun b => b.minheight)).sum) ef).offset_y bs 0 hbs
  cases m with
  | false => exact ⟨boxInv_boxInit _ _ _, hplaced⟩
  | true =>
    exact ⟨boxInv_boxInit _ _ _,
      mem_map_inv _ (fun b hb => boxInv_expand _ _ _ hb) _ hplaced⟩

theorem vsplitInit_inv (bs : List Box) (m : Bool) (ef : Int)
    (hbs : ∀ b ∈ bs, boxInv b) : vsplitInv (vsplitInit bs m ef) := by
  have hplaced := vsplitOffsets_inv
    (boxInit ((bs.map (fun b => b.minwidth)).sum)
      (listMax (bs.map (fun b => b.minheight))) ef).offset_x
    (boxInit ((bs.map (fun b => b.minwidth)).sum)
      (listMax (bs.map (fun b => b.minheight))) ef).offset_y bs 0 hbs
  cases m with
  | false => exact ⟨boxInv_boxInit _ _ _, hplaced⟩
  | true =>
    exact ⟨boxInv_boxInit _ _ _,
      mem_map_inv _ (fun b hb => boxInv_expand _ _ _ hb) _ hplaced⟩

theorem hsplitUCO_inv (s : HSplitBox) (hs : hsplitInv s) : hsplitInv (hsplitUCO s) :=
  ⟨hs.1, hsplitOffsets_inv _ _ s.subboxes 0 hs.2⟩

theorem vsplitUCO_inv (s : VSplitBox) (hs : vsplitInv s) : vsplitInv (vsplitUCO s) :=
  ⟨hs.1, vsplitOffsets_inv _ _ s.subboxes 0 hs.2⟩

theorem hsplitHeightPhase_inv (h : Option Int) (s1 : HSplitBox)
    (hs1 : hsplitInv s1) : hsplitInv (hsplitHeightPhase h s1).1 := by
  by_cases hty : truthy h = true
  · by_cases hz : (accumulate (s1.subboxes.map (fun b => b.expandfactor))).getLastD 0 = 0
    · simp only [hsplitHeightPhase, hty, if_true, if_pos hz]
      exact hs1
    · rcases hr : (threadDistribH (h.getD 0 - s1.box.minheight)
          ((accumulate (s1.subboxes.map (fun b => b.expandfactor))).getLastD 0) 0
          s1.subboxes (accumulate (s1.subboxes.map (fun b => b.expandfactor)))).2 with _ | err
      · simp only [hsplitHeightPhase, hty, if_true, if_neg hz, hr]
        exact hsplitUCO_inv _ ⟨hs1.1, threadDistribH_inv _ _ _ _ _ hs1.2⟩
      · simp only [hsplitHeightPhase, hty, if_true, if_neg hz, hr]
        exact ⟨hs1.1, threadDistribH_inv _ _ _ _ _ hs1.2⟩
  · simp only [hsplitHeightPhase, Bool.not_eq_true] at hty ⊢
    simp only [hty, Bool.false_eq_true, if_false]
    exact hsplitUCO_inv _ hs1

theorem vsplitWidthPhase_inv (w : Option Int) (s1 : VSplitBox)
    (hs1 : vsplitInv s1) : vsplitInv (vsplitWidthPhase w s1).1 := by
  by_cases hty : truthy w = true
  · by_cases hz : (accumulate (s1.subboxes.map (fun b => b.expandfactor))).getLastD 0 = 0
    · simp only [vsplitWidthPhase, hty, if_true, if_pos hz]
      exact hs1
    · rcases hr : (threadDistribW (w.getD 0 - s1.box.minwidth)
          ((accumulate (s1.subboxes.map (fun b => b.expandfactor))).getLastD 0) 0
          s1.subboxes (accumulate (s1.subboxes.map (fun b => b.expandfactor)))).2 with _ | err
      · simp only [vsplitWidthPhase, hty, if_true, if_neg hz, hr]
        exact vsplitUCO_inv _ ⟨hs1.1, threadDistribW_inv _ _ _ _ _ hs1.2⟩
      · simp only [vsplitWidthPhase, hty, if_true, if_neg hz, hr]
        exact ⟨hs1.1, threadDistribW_inv _ _ _ _ _ hs1.2⟩
  · simp only [vsplitWidthPhase, Bool.not_eq_true] at hty ⊢
    simp only [hty, Bool.false_eq_true, if_false]
    exact vsplitUCO_inv _ hs1

theorem hsplitInv_expand (s : HSplitBox) (w h : Option Int) (hs : hsplitInv s) :
    hsplitInv (s.expand w h).1 := by
  rcases hb : (s.box.expand w h).2 with _ | err
  case some => simpa [HSplitBox.expand, hb] using hs
  case none =>
    have hbox : boxInv (s.box.expand w h).1 := boxInv_expand _ _ _ hs.1
    by_cases hm : s.matchwidths = true
    · rcases ht : (threadMatch (fun b => b.expand w none) s.subboxes).2 with _ | e2
      · simp only [HSplitBox.expand, hb, hm, if_true, ht]
        exact hsplitHeightPhase_inv h _
          ⟨hbox, threadMatch_inv _ (fun b hb2 => boxInv_expand _ _ _ hb2) _ hs.2⟩
      · simp only [HSplitBox.expand, hb, hm, if_true, ht]
        exact ⟨hbox, threadMatch_inv _ (fun b hb2 => boxInv_expand _ _ _ hb2) _ hs.2⟩
    · simp only [HSplitBox.expand, hb, hm, Bool.false_eq_true, if_false]
      exact hsplitHeightPhase_inv h _ ⟨hbox, hs.2⟩

theorem vsplitInv_expand (s : VSplitBox) (w h : Option Int) (hs : vsplitInv s) :
    vsplitInv (s.expand w h).1 := by
  rcases hb : (s.box.expand w h).2 with _ | err
  case some => simpa [VSplitBox.expand, hb] using hs
  case none =>
    have hbox : boxInv (s.box.expand w h).1 := boxInv_expand _ _ _ hs.1
    by_cases hm : s.matchheights = true
    · rcases ht : (threadMatch (fun b => b.expand none h) s.subboxes).2 with _ | e2
      · simp only [VSplitBox.expand, hb, hm, if_true, ht]
        exact vsplitWidthPhase_inv w _
          ⟨hbox, threadMatch_inv _ (fun b hb2 => boxInv_expand _ _ _ hb2) _ hs.2⟩
      · simp only [VSplitBox.expand, hb, hm, if_true, ht]
        exact ⟨hbox, threadMatch_inv _ (fun b hb2 => boxInv_expand _ _ _ hb2) _ hs.2⟩
    · simp only [VSplitBox.expand, hb, hm, Bool.false_eq_true, if_false]
      exact vsplitWidthPhase_inv w _ ⟨hbox, hs.2⟩

/-- C7 (confirmed): `width ≥ minWidth ∧ height ≥ minHeight` holds for every
freshly constructed box, is established by every composite constructor for
the composite and its whole subtree (children satisfying it beforehand), and
is preserved — for the box and every box in its subtree — by every `expand`
call on any box type, raising or not: every size mutation goes through
`Box.expand`'s own check. -/
theorem min_size_invariant :
    (∀ mw mh ef : Int, boxInv (boxInit mw mh ef)) ∧
    (∀ (b : Box) (w h : Option Int), boxInv b → boxInv (b.expand w h).1) ∧
    (∀ (subboxes : List (List Box)) (cf rf : Option (List Int)),
      (∀ row ∈ subboxes, ∀ b ∈ row, boxInv b) → gridInv (gridInit subboxes cf rf)) ∧
    (∀ (g : GridBox) (w h : Option Int), gridInv g → gridInv (g.expand w h).1) ∧
    (∀ (bs : List Box) (m : Bool) (ef : Int),
      (∀ b ∈ bs, boxInv b) → layerInv (layerInit bs m ef)) ∧
    (∀ (l : LayerBox) (w h : Option Int), layerInv l → layerInv (l.expand w h).1) ∧
    (∀ (inner : Box) (th : Thickness) (ef : Int),
      boxInv inner → borderInv (borderInit inner th ef)) ∧
    (∀ (s : BorderBox) (w h : Option Int), borderInv s → borderInv (s.expand w h).1) ∧
    (∀ (bs : List Box) (m : Bool) (ef : Int),
      (∀ b ∈ bs, boxInv b) → hsplitInv (hsplitInit bs m ef)) ∧
    (∀ (s : HSplitBox) (w h : Option Int), hsplitInv s → hsplitInv (s.expand w h).1) ∧
    (∀ (bs : List Box) (m : Bool) (ef : Int),
      (∀ b ∈ bs, boxInv b) → vsplitInv (vsplitInit bs m ef)) ∧
    (∀ (s : VSplitBox) (w h : Option Int), vsplitInv s → vsplitInv (s.expand w h).1) :=
  ⟨boxInv_boxInit, boxInv_expand, gridInit_inv, gridInv_expand, layerInit_inv,
    layerInv_expand, borderInit_inv, borderInv_expand, hsplitInit_inv,
    hsplitInv_expand, vsplitInit_inv, vsplitInv_expand⟩

instance (b : Box) : Decidable (boxInv b) :=
  inferInstanceAs (Decidable (b.minwidth ≤ b.width ∧ b.minheight ≤ b.height))

/-- Witness for C7: the invariant after a concrete successful grid expand. -/
theorem min_size_invariant_witness :
    gridInv ((gridInit [[boxInit 10 2 1, boxInit 20 1 1]] (some [1, 3]) none).expand
      (some 34) none).1 ∧
    boxInv ((boxInit 10 10 1).expand (some 16) none).1 := by
  constructor
  · exact min_size_invariant.2.2.2.1 _ (some 34) none
      (min_size_invariant.2.2.1 [[boxInit 10 2 1, boxInit 20 1 1]] (some [1, 3]) none
        (by decide))
  · exact min_size_invariant.2.1 (boxInit 10 10 1) (some 16) none (by decide)

/-! ### C9: HSplitBox / VSplitBox vs degenerate GridBox -/

theorem box_expand_some_none (b : Box) (x : Int) :
    b.expand (some x) none =
      if axisOk (some x) b.minwidth = true then
        ({ b with width := if truthy (some x) then x else b.width }, none)
      else (b, some .tooSmall) := by
  by_cases hc : axisOk (some x) b.minwidth = true <;>
    simp [Box.expand, hc, axisOk, truthy]

theorem box_expand_none_some (b : Box) (y : Int) :
    b.expand none (some y) =
      if axisOk (some y) b.minheight = true then
        ({ b with height := if truthy (some y) then y else b.height }, none)
      else (b, some .tooSmall) := by
  by_cases hc : axisOk (some y) b.minheight = true <;>
    simp [Box.expand, hc, axisOk, truthy]

theorem box_expand_comm (b : Box) (x y : Int) :
    ((b.expand none (some y)).1.expand (some x) none).1 =
      ((b.expand (some x) none).1.expand none (some y)).1 := by
  by_cases cy : axisOk (some y) b.minheight = true <;>
    by_cases cx : axisOk (some x) b.minwidth = true <;>
      simp [box_expand_none_some, box_expand_some_none, cx, cy]

theorem threadMatch_congr (f f2 : Box → Box × Option LayoutError) :
    ∀ bs : List Box, (∀ b ∈ bs, f b = f2 b) → threadMatch f bs = threadMatch f2 bs := by
  intro bs
  induction bs with
  | nil => intro _; rfl
  | cons b bt ih =>
    intro hbs
    simp only [threadMatch, hbs b (by simp), ih (fun b2 h2 => hbs b2 (by simp [h2]))]

theorem threadMatch_map {γ : Type} (f : Box → Box × Option LayoutError) (proj : Box → γ)
    (hf : ∀ b, proj ((f b).1) = proj b) :
    ∀ bs : List Box, ((threadMatch f bs).1).map proj = bs.map proj := by
  intro bs
  induction bs with
  | nil => rfl
  | cons b bt ih =>
    rcases hr : (f b).2 with _ | err <;>
      simp only [threadMatch, hr, List.map_cons, hf, ih]

theorem threadMatch_noerr (f : Box → Box × Option LayoutError) :
    ∀ bs : List Box, (∀ b ∈ bs, (f b).2 = none) →
      threadMatch f bs = (bs.map (fun b => (f b).1), none) := by
  intro bs
  induction bs with
  | nil => intro _; rfl
  | cons b bt ih =>
    intro hbs
    simp only [threadMatch, hbs b (by simp), List.map_cons,
      ih (fun b2 h2 => hbs b2 (by simp [h2]))]

theorem threadDistribH_map {γ : Type} (proj : Box → γ)
    (hproj : ∀ (b : Box) (w h : Option Int), proj ((b.expand w h).1) = proj b)
    (e t : Int) :
    ∀ (bs : List Box) (cfs : List Int) (prev : Int),
      ((threadDistribH e t prev bs cfs).1).map proj = bs.map proj := by
  intro bs
  induction bs with
  | nil => intro cfs prev; cases cfs <;> rfl
  | cons b bt ih =>
    intro cfs prev
    cases cfs with
    | nil => rfl
    | cons cf cft =>
      rcases hr : (b.expand none
          (some (b.minheight + (cumExpansion e t cf - prev)))).2 with _ | err <;>
        simp only [threadDistribH, hr, List.map_cons, hproj, ih]

theorem threadDistribW_map {γ : Type} (proj : Box → γ)
    (hproj : ∀ (b : Box) (w h : Option Int), proj ((b.expand w h).1) = proj b)
    (e t : Int) :
    ∀ (bs : List Box) (cfs : List Int) (prev : Int),
      ((threadDistribW e t prev bs cfs).1).map proj = bs.map proj := by
  intro bs
  induction bs with
  | nil => intro cfs prev; cases cfs <;> rfl
  | cons b bt ih =>
    intro cfs prev
    cases cfs with
    | nil => rfl
    | cons cf cft =>
      rcases hr : (b.expand
          (some (b.minwidth + (cumExpansion e t cf - prev))) none).2 with _ | err <;>
        simp only [threadDistribW, hr, List.map_cons, hproj, ih]

theorem colsOf_single_row (bs : List Box) : colsOf [bs] = bs.map (fun b => [b]) := rfl

theorem colsOf_map_singleton (bs : List Box) (hne : bs ≠ []) :
    colsOf (bs.map (fun b => [b])) = [bs] := by
  induction bs with
  | nil => exact absurd rfl hne
  | cons b bt ih =>
    cases bt with
    | nil => rfl
    | cons b2 bt2 =>
      show consRow [b] (colsOf ((b2 :: bt2).map (fun b => [b]))) = [b :: b2 :: bt2]
      rw [ih (by simp)]
      rfl

/-- The grid's column pass on a single-row grid (all columns singletons) is
exactly the `VSplitBox` width-distribution pass. -/
theorem threadCols_singletons (e t : Int) :
    ∀ (bs : List Box) (cfs : List Int) (prev : Int),
      threadCols e t prev (bs.map (fun b => [b])) cfs =
        (((threadDistribW e t prev bs cfs).1).map (fun b => [b]),
          (threadDistribW e t prev bs cfs).2) := by
  intro bs
  induction bs with
  | nil => intro cfs prev; cases cfs <;> rfl
  | cons b bt ih =>
    intro cfs prev
    cases cfs with
    | nil => rfl
    | cons cf cft =>
      rcases hr : (b.expand
          (some (b.minwidth + (cumExpansion e t cf - prev))) none).2 with _ | err
      · simp only [List.map_cons, threadCols, threadDistribW, threadMatch, hr, ih]
      · simp only [List.map_cons, threadCols, threadDistribW, threadMatch, hr]

/-- The grid's row pass on a single-column grid (all rows singletons) is
exactly the `HSplitBox` height-distribution pass. -/
theorem threadRows_singletons (e t : Int) :
    ∀ (bs : List Box) (cfs : List Int) (prev : Int),
      threadRows e t prev (bs.map (fun b => [b])) cfs =
        (((threadDistribH e t prev bs cfs).1).map (fun b => [b]),
          (threadDistribH e t prev bs cfs).2) := by
  intro bs
  induction bs with
  | nil => intro cfs prev; cases cfs <;> rfl
  | cons b bt ih =>
    intro cfs prev
    cases cfs with
    | nil => rfl
    | cons cf cft =>
      rcases hr : (b.expand none
          (some (b.minheight + (cumExpansion e t cf - prev)))).2 with _ | err
      · simp only [List.map_cons, threadRows, threadDistribH, threadMatch, hr, ih]
      · simp only [List.map_cons, threadRows, threadDistribH, threadMatch, hr]

/-- The grid's column pass on a single-column grid (one column holding all
the children) is the `HSplitBox` width-match pass with the per-member
targets spelled out. -/
theorem threadCols_one_column (e t : Int) (bs : List Box) (cf : Int) :
    threadCols e t 0 [bs] [cf] =
      ([(threadMatch (fun b =>
          b.expand (some (b.minwidth + (cumExpansion e t cf - 0))) none) bs).1],
        (threadMatch (fun b =>
          b.expand (some (b.minwidth + (cumExpansion e t cf - 0))) none) bs).2) := by
  rcases hr : (threadMatch (fun b =>
      b.expand (some (b.minwidth + (cumExpansion e t cf - 0))) none) bs).2 with _ | err <;>
    simp only [threadCols, hr]

theorem cumExpansion_mono (e t c1 c2 : Int) (he : 0 ≤ e) (htp : 0 < t)
    (hc1 : 0 ≤ c1) (h12 : c1 ≤ c2) :
    cumExpansion e t c1 ≤ cumExpansion e t c2 := by
  unfold cumExpansion pydiv
  have h1 : 0 ≤ e * c1 := mul_nonneg he hc1
  have h2 : e * c1 ≤ e * c2 := mul_le_mul_of_nonneg_left h12 he
  rw [Int.tdiv_eq_ediv h1 htp.le, Int.tdiv_eq_ediv (h1.trans h2) htp.le]
  exact Int.ediv_le_ediv htp h2

theorem axisOk_add_nonneg (m d : Int) (hd : 0 ≤ d) :
    axisOk (some (m + d)) m = true := by
  simp only [axisOk, truthy]
  split
  · simp
    omega
  · rfl

/-- The pure form of the width-distribution loop, used to state that the
loop does not raise under nonnegative factors. -/
def distribWSpec (e t : Int) : Int → List Box → List Int → List Box
  | _, bs, [] => bs
  | _, [], _ => []
  | prev, b :: bs, cf :: cfs =>
    (b.expand (some (b.minwidth + (cumExpansion e t cf - prev))) none).1 ::
      distribWSpec e t (cumExpansion e t cf) bs cfs

theorem threadDistribW_ok (e t : Int) (he : 0 ≤ e) (htp : 0 < t) :
    ∀ (bs : List Box) (cfs : List Int) (p : Int), 0 ≤ p → List.Chain (· ≤ ·) p cfs →
      threadDistribW e t (cumExpansion e t p) bs cfs =
        (distribWSpec e t (cumExpansion e t p) bs cfs, none) := by
  intro bs
  induction bs with
  | nil => intro cfs p _ _; cases cfs <;> rfl
  | cons b bt ih =>
    intro cfs p hp hchain
    cases cfs with
    | nil => rfl
    | cons cf cft =>
      rw [List.chain_cons] at hchain
      have hexp : 0 ≤ cumExpansion e t cf - cumExpansion e t p :=
        sub_nonneg.mpr (cumExpansion_mono e t p cf he htp hp hchain.1)
      have hok : (b.expand (some (b.minwidth + (cumExpansion e t cf -
          cumExpansion e t p))) none).2 = none := by
        rw [box_expand_some_none, if_pos (axisOk_add_nonneg _ _ hexp)]
      simp only [threadDistribW, distribWSpec, hok]
      rw [ih cft cf (hp.trans hchain.1) hchain.2]

theorem accumulate_chain (p : Int) (hp0 : 0 ≤ p) :
    ∀ (l : List Int), (∀ x ∈ l, 0 ≤ x) →
      List.Chain (· ≤ ·) p ((accumulate l).map (p + ·)) := by
  intro l
  induction l generalizing p with
  | nil => intro _; exact List.Chain.nil
  | cons x xt ih =>
    intro hl
    have hx : 0 ≤ x := hl x (by simp)
    simp only [accumulate, List.map_cons, List.map_map]
    refine List.Chain.cons (by omega) ?_
    have := ih (p + x) (by omega) (fun z hz => hl z (by simp [hz]))
    have hcomp : ((accumulate xt).map ((p + ·) ∘ (x + ·))) =
        (accumulate xt).map ((p + x) + ·) := by
      refine List.map_congr_left ?_
      intro a _
      show p + (x + a) = (p + x) + a
      ring
    rw [hcomp]
    exact this

theorem map_zero_add (l : List Int) : l.map ((0 : Int) + ·) = l := by
  have : l.map ((0 : Int) + ·) = l.map id := by
    refine List.map_congr_left ?_
    intro a _
    exact zero_add a
  rw [this, List.map_id]

theorem forall_proj_of_map_eq {γ : Type} (proj : Box → γ) (M : γ) :
    ∀ (l l0 : List Box), l.map proj = l0.map proj → (∀ b ∈ l0, proj b = M) →
      ∀ b ∈ l, proj b = M := by
  intro l
  induction l with
  | nil => intro l0 _ _ b hb; simp at hb
  | cons x xt ih =>
    intro l0 hmap hl0 b hb
    cases l0 with
    | nil => simp at hmap
    | cons y yt =>
      simp only [List.map_cons, List.cons.injEq] at hmap
      rcases List.mem_cons.mp hb with hb | hb
      · rw [hb, hmap.1]; exact hl0 y (by simp)
      · exact ih yt hmap.2 (fun b2 h2 => hl0 b2 (by simp [h2])) b hb

theorem distribWSpec_map_comm (e t y : Int) :
    ∀ (bs : List Box) (cfs : List Int) (prev : Int),
      distribWSpec e t prev (bs.map (fun b => (b.expand none (some y)).1)) cfs =
        (distribWSpec e t prev bs cfs).map (fun b => (b.expand none (some y)).1) := by
  intro bs
  induction bs with
  | nil => intro cfs prev; cases cfs <;> rfl
  | cons b bt ih =>
    intro cfs prev
    cases cfs with
    | nil => rfl
    | cons cf cft =>
      simp only [List.map_cons, distribWSpec]
      refine congrArg₂ List.cons ?_ (ih cft _)
      rw [(box_expand_statics b none (some y)).1]
      exact box_expand_comm b _ y

theorem vsplit_uco_zip (gx gy : Int) :
    ∀ (bs : List Box) (acc : Int),
      zipWithKeep (fun b ox => b.set_parentoffset (some (gx + ox)) (some (gy + 0))) bs
        (acc :: (accumulate (bs.map (fun b => b.width))).map (acc + ·)) =
      vsplitOffsets gx gy acc bs := by
  intro bs
  induction bs with
  | nil => intro acc; rfl
  | cons b bt ih =>
    intro acc
    simp only [List.map_cons, accumulate, zipWithKeep, vsplitOffsets, List.map_map]
    refine congrArg₂ List.cons (by rw [add_zero]) ?_
    have hcomp : ((accumulate (bt.map (fun b => b.width))).map ((acc + ·) ∘ (b.width + ·))) =
        (accumulate (bt.map (fun b => b.width))).map ((acc + b.width) + ·) := by
      refine List.map_congr_left ?_
      intro a _
      show acc + (b.width + a) = (acc + b.width) + a
      ring
    rw [hcomp]
    exact ih (acc + b.width)

theorem gridUCO_single_row (g : GridBox) (bs : List Box) (hsub : g.subboxes = [bs]) :
    (gridUCO g).subboxes = [vsplitOffsets g.box.offset_x g.box.offset_y 0 bs] := by
  rw [gridUCO_subboxes, hsub]
  show [zipWithKeep (fun b ox => b.set_parentoffset (some (g.box.offset_x + ox))
      (some (g.box.offset_y + 0))) bs (0 :: accumulate (bs.map (fun b => b.width)))] = _
  refine congrArg (fun l => [l]) ?_
  rw [show (0 : Int) :: accumulate (bs.map (fun b => b.width)) =
      (0 : Int) :: (accumulate (bs.map (fun b => b.width))).map ((0 : Int) + ·) from by
    rw [map_zero_add]]
  exact vsplit_uco_zip g.box.offset_x g.box.offset_y bs 0

theorem hsplit_uco_zip (gx gy : Int) (rest : List Int) :
    ∀ (bs : List Box) (acc : Int),
      zipWithKeep (fun row oy => zipWithKeep (fun b ox =>
          b.set_parentoffset (some (gx + ox)) (some (gy + oy))) row ((0 : Int) :: rest))
        (bs.map (fun b => [b]))
        (acc :: (accumulate (bs.map (fun b => b.height))).map (acc + ·)) =
      (hsplitOffsets gx gy acc bs).map (fun b => [b]) := by
  intro bs
  induction bs with
  | nil => intro acc; rfl
  | cons b bt ih =>
    intro acc
    simp only [List.map_cons, accumulate, zipWithKeep, hsplitOffsets, List.map_map]
    refine congrArg₂ List.cons (by rw [add_zero]) ?_
    have hcomp : ((accumulate (bt.map (fun b => b.height))).map ((acc + ·) ∘ (b.height + ·))) =
        (accumulate (bt.map (fun b => b.height))).map ((acc + b.height) + ·) := by
      refine List.map_congr_left ?_
      intro a _
      show acc + (b.height + a) = (acc + b.height) + a
      ring
    rw [hcomp]
    exact ih (acc + b.height)

theorem gridUCO_single_col (g : GridBox) (bs : List Box)
    (hsub : g.subboxes = bs.map (fun b => [b])) :
    (gridUCO g).subboxes =
      (hsplitOffsets g.box.offset_x g.box.offset_y 0 bs).map (fun b => [b]) := by
  rw [gridUCO_subboxes, hsub]
  cases bs with
  | nil => rfl
  | cons b bt =>
    show zipWithKeep _ ((b :: bt).map (fun b => [b]))
      ((0 : Int) :: accumulate ((b :: bt).map (fun b => [b]) |>.map
        (fun row => (row.headD defaultBox).height))) = _
    have hmaps : ((b :: bt).map (fun b => [b])).map
        (fun row => (row.headD defaultBox).height) = (b :: bt).map (fun b => b.height) := by
      rw [List.map_map]
      rfl
    rw [hmaps]
    rw [show (0 : Int) :: accumulate ((b :: bt).map (fun b => b.height)) =
        (0 : Int) :: (accumulate ((b :: bt).map (fun b => b.height))).map ((0 : Int) + ·) from by
      rw [map_zero_add]]
    exact hsplit_uco_zip g.box.offset_x g.box.offset_y _ (b :: bt) 0

theorem hsplitOffsets_map {γ : Type} (proj : Box → γ)
    (hproj : ∀ (b : Box) (x y : Option Int), proj (b.set_parentoffset x y) = proj b)
    (ox oy : Int) :
    ∀ (bs : List Box) (acc : Int),
      (hsplitOffsets ox oy acc bs).map proj = bs.map proj := by
  intro bs
  induction bs with
  | nil => intro acc; rfl
  | cons b bt ih =>
    intro acc
    simp only [hsplitOffsets, List.map_cons, hproj, ih]

theorem vsplitOffsets_map {γ : Type} (proj : Box → γ)
    (hproj : ∀ (b : Box) (x y : Option Int), proj (b.set_parentoffset x y) = proj b)
    (ox oy : Int) :
    ∀ (bs : List Box) (acc : Int),
      (vsplitOffsets ox oy acc bs).map proj = bs.map proj := by
  intro bs
  induction bs with
  | nil => intro acc; rfl
  | cons b bt ih =>
    intro acc
    simp only [vsplitOffsets, List.map_cons, hproj, ih]

theorem cumExpansion_one (e : Int) : cumExpansion e 1 1 = e := by
  unfold cumExpansion pydiv
  rw [mul_one, Int.tdiv_one]

theorem forall_pred_of_map_eq {γ : Type} (proj : Box → γ) (P : γ → Prop) :
    ∀ (l l0 : List Box), l.map proj = l0.map proj → (∀ b ∈ l0, P (proj b)) →
      ∀ b ∈ l, P (proj b) := by
  intro l
  induction l with
  | nil => intro l0 _ _ b hb; simp at hb
  | cons x xt ih =>
    intro l0 hmap hl0 b hb
    cases l0 with
    | nil => simp at hmap
    | cons y yt =>
      simp only [List.map_cons, List.cons.injEq] at hmap
      rcases List.mem_cons.mp hb with hb | hb
      · rw [hb, hmap.1]; exact hl0 y (by simp)
      · exact ih yt hmap.2 (fun b2 h2 => hl0 b2 (by simp [h2])) b hb

/-- The grid's height block on a single-column grid is the `HSplitBox`
height phase: same raise, same children (in singleton rows), same offsets,
factor and width data untouched. -/
theorem hsplit_height_equiv (g : GridBox) (s : HSplitBox) (h : Option Int)
    (hbox : g.box = s.box)
    (hsub : g.subboxes = s.subboxes.map (fun b => [b]))
    (hcr : g.cumrowfactors = accumulate (s.subboxes.map (fun b => b.expandfactor)))
    (hsr : g.sumrowfactors = (accumulate (s.subboxes.map (fun b => b.expandfactor))).getLastD 0)
    (hne : h ≠ some 0) :
    ∃ bs' : List Box,
      hsplitHeightPhase h s = ({ s with subboxes := bs' }, (hsplitHeightPhase h s).2) ∧
      gridHeightBlock h g =
        ({ g with subboxes := bs'.map (fun b => [b]) }, (hsplitHeightPhase h s).2) ∧
      bs'.map (fun b => b.expandfactor) = s.subboxes.map (fun b => b.expandfactor) ∧
      bs'.map (fun b => b.minwidth) = s.subboxes.map (fun b => b.minwidth) := by
  cases h with
  | none =>
    have hsp : hsplitHeightPhase none s = (hsplitUCO s, none) := rfl
    have hucoS : hsplitUCO s =
        { s with subboxes := hsplitOffsets s.box.offset_x s.box.offset_y 0 s.subboxes } := rfl
    have hucoG : gridUCO g =
        { g with subboxes :=
          (hsplitOffsets s.box.offset_x s.box.offset_y 0 s.subboxes).map (fun b => [b]) } := by
      have huco : (gridUCO g).subboxes =
          (hsplitOffsets s.box.offset_x s.box.offset_y 0 s.subboxes).map (fun b => [b]) := by
        rw [gridUCO_single_col g s.subboxes hsub, hbox]
      rw [show gridUCO g = { g with subboxes := (gridUCO g).subboxes } from rfl, huco]
    refine ⟨hsplitOffsets s.box.offset_x s.box.offset_y 0 s.subboxes, ?_, ?_, ?_, ?_⟩
    · rw [hsp, hucoS]
    · show (gridUCO g, none) = _
      rw [hsp, hucoG]
    · exact hsplitOffsets_map (fun b => b.expandfactor) (fun b x y => rfl) _ _ _ _
    · exact hsplitOffsets_map (fun b => b.minwidth) (fun b x y => rfl) _ _ _ _
  | some hv =>
    have hv0 : hv ≠ 0 := fun habs => hne (by rw [habs])
    have hty : truthy (some hv) = true := by simp [truthy, hv0]
    by_cases hz : (accumulate (s.subboxes.map (fun b => b.expandfactor))).getLastD 0 = 0
    · have hsp : hsplitHeightPhase (some hv) s = (s, none) := by
        simp only [hsplitHeightPhase, hty, if_true, if_pos hz]
      have hgp : gridHeightBlock (some hv) g = (g, none) := by
        simp only [gridHeightBlock, if_pos (hsr.trans hz)]
      refine ⟨s.subboxes, ?_, ?_, rfl, rfl⟩
      · rw [hsp]
      · rw [hgp, hsp, ← hsub]
    · set D := threadDistribH (hv - s.box.minheight)
        ((accumulate (s.subboxes.map (fun b => b.expandfactor))).getLastD 0) 0
        s.subboxes (accumulate (s.subboxes.map (fun b => b.expandfactor))) with hDdef
      have hgridrows : threadRows (hv - g.box.minheight) g.sumrowfactors 0
          g.subboxes g.cumrowfactors = (D.1.map (fun b => [b]), D.2) := by
        rw [show hv - g.box.minheight = hv - s.box.minheight from by rw [hbox],
          hsr, hsub, hcr]
        exact threadRows_singletons _ _ s.subboxes _ 0
      have hmap_ef : D.1.map (fun b => b.expandfactor) =
          s.subboxes.map (fun b => b.expandfactor) := by
        rw [hDdef]
        exact threadDistribH_map (fun b => b.expandfactor)
          (fun b w2 h2 => (box_expand_statics b w2 h2).2.2.1) _ _ _ _ _
      have hmap_mw : D.1.map (fun b => b.minwidth) =
          s.subboxes.map (fun b => b.minwidth) := by
        rw [hDdef]
        exact threadDistribH_map (fun b => b.minwidth)
          (fun b w2 h2 => (box_expand_statics b w2 h2).1) _ _ _ _ _
      cases hD2 : D.2 with
      | some err =>
        have hsp : hsplitHeightPhase (some hv) s = ({ s with subboxes := D.1 }, some err) := by
          simp only [hsplitHeightPhase, hty, if_true, Option.getD_some, if_neg hz, ← hDdef, hD2]
        have hgp : gridHeightBlock (some hv) g =
            ({ g with subboxes := D.1.map (fun b => [b]) }, some err) := by
          simp only [gridHeightBlock]
          rw [if_neg (show ¬ g.sumrowfactors = 0 from by rw [hsr]; exact hz), hgridrows]
          simp only [hD2]
        refine ⟨D.1, ?_, ?_, hmap_ef, hmap_mw⟩
        · rw [hsp]
        · rw [hgp, hsp]
      | none =>
        have hsp : hsplitHeightPhase (some hv) s =
            (hsplitUCO { s with subboxes := D.1 }, none) := by
          simp only [hsplitHeightPhase, hty, if_true, Option.getD_some, if_neg hz, ← hDdef, hD2]
        have hucoS : hsplitUCO { s with subboxes := D.1 } =
            { s with subboxes := hsplitOffsets s.box.offset_x s.box.offset_y 0 D.1 } := rfl
        have hgp : gridHeightBlock (some hv) g =
            (gridUCO { g with subboxes := D.1.map (fun b => [b]) }, none) := by
          simp only [gridHeightBlock]
          rw [if_neg (show ¬ g.sumrowfactors = 0 from by rw [hsr]; exact hz), hgridrows]
          simp only [hD2]
        have hucoG : gridUCO { g with subboxes := D.1.map (fun b => [b]) } =
            { g with subboxes :=
              (hsplitOffsets s.box.offset_x s.box.offset_y 0 D.1).map (fun b => [b]) } := by
          have huco : (gridUCO { g with subboxes := D.1.map (fun b => [b]) }).subboxes =
              (hsplitOffsets s.box.offset_x s.box.offset_y 0 D.1).map (fun b => [b]) := by
            rw [gridUCO_single_col { g with subboxes := D.1.map (fun b => [b]) } D.1 rfl]
            rw [show ({ g with subboxes := D.1.map (fun b => [b]) } : GridBox).box = s.box
              from hbox]
          rw [show gridUCO { g with subboxes := D.1.map (fun b => [b]) } =
            { g with subboxes :=
              (gridUCO { g with subboxes := D.1.map (fun b => [b]) }).subboxes } from rfl, huco]
        refine ⟨hsplitOffsets s.box.offset_x s.box.offset_y 0 D.1, ?_, ?_, ?_, ?_⟩
        · rw [hsp, hucoS]
        · rw [hgp, hucoG, hsp, hucoS]
        · rw [hsplitOffsets_map (fun b => b.expandfactor) (fun b x y => rfl) _ _ _ _]
          exact hmap_ef
        · rw [hsplitOffsets_map (fun b => b.minwidth) (fun b x y => rfl) _ _ _ _]
          exact hmap_mw

theorem box_expand_ok_iff (b : Box) (w h : Option Int) :
    (b.expand w h).2 = none ↔
      (axisOk w b.minwidth = true ∧ axisOk h b.minheight = true) := by
  by_cases hc : (axisOk w b.minwidth && axisOk h b.minheight) = true
  · have := hc
    rw [Bool.and_eq_true] at this
    simp [Box.expand, hc, this]
  · rw [Bool.and_eq_true] at hc
    push_neg at hc
    constructor
    · intro hok
      by_cases h1 : axisOk w b.minwidth = true
      · have h2 := hc h1
        simp [Box.expand, h1, h2] at hok
      · simp [Box.expand, h1] at hok
    · intro hand
      exact absurd hand.2 (hc hand.1)

theorem cumExpansion_zero (e t : Int) : cumExpansion e t 0 = 0 := by
  unfold cumExpansion pydiv
  rw [mul_zero, Int.zero_tdiv]

theorem truthy_some_ne (v : Int) (hv : v ≠ 0) : truthy (some v) = true := by
  simp [truthy, hv]

theorem box_expand_exact_width (b : Box) (w : Int)
    (hmw : b.minwidth = w) (hw : b.width = w) : b.expand (some w) none = (b, none) := by
  subst hmw
  have hok : axisOk (some b.minwidth) b.minwidth = true := by
    simp only [axisOk]
    split
    · simp
    · rfl
  rw [box_expand_some_none, if_pos hok]
  have hval : (if truthy (some b.minwidth) then b.minwidth else b.width) = b.width := by
    split
    · exact hw.symm
    · rfl
  rw [hval]

theorem box_expand_exact_height (b : Box) (y : Int)
    (hmh : b.minheight = y) (hh : b.height = y) : b.expand none (some y) = (b, none) := by
  subst hmh
  have hok : axisOk (some b.minheight) b.minheight = true := by
    simp only [axisOk]
    split
    · simp
    · rfl
  rw [box_expand_none_some, if_pos hok]
  have hval : (if truthy (some b.minheight) then b.minheight else b.height) = b.height := by
    split
    · exact hh.symm
    · rfl
  rw [hval]

theorem listMax_const (M : Int) :
    ∀ (l : List Int), l ≠ [] → (∀ x ∈ l, x = M) → listMax l = M := by
  have haux : ∀ (xs : List Int) (a : Int), (∀ x ∈ xs, x = a) → xs.foldl max a = a := by
    intro xs
    induction xs with
    | nil => intro a _; rfl
    | cons x xt ih =>
      intro a hxs
      show xt.foldl max (max a x) = a
      rw [hxs x (by simp), max_self]
      exact ih a (fun z hz => hxs z (by simp [hz]))
  intro l hne hl
  cases l with
  | nil => exact absurd rfl hne
  | cons x xt =>
    show xt.foldl max x = M
    rw [hl x (by simp)]
    exact haux xt M (fun z hz => hl z (by simp [hz]))

theorem zipWithKeep_maps {α β γ : Type} (f : β → γ → β) (u : α → β) (v : α → γ) :
    ∀ l : List α, (∀ a ∈ l, f (u a) (v a) = u a) →
      zipWithKeep f (l.map u) (l.map v) = l.map u := by
  intro l
  induction l with
  | nil => intro _; rfl
  | cons a at_ ih =>
    intro hl
    simp only [List.map_cons, zipWithKeep, hl a (by simp),
      ih (fun z hz => hl z (by simp [hz]))]

theorem map_map_proj {γ : Type} (f : Box → Box) (proj : Box → γ)
    (hf : ∀ b, proj (f b) = proj b) (bs : List Box) :
    (bs.map f).map proj = bs.map proj := by
  rw [List.map_map]
  exact List.map_congr_left (fun b _ => hf b)

theorem ne_nil_of_map_eq {γ : Type} (proj : Box → γ) (l l0 : List Box)
    (hmap : l.map proj = l0.map proj) (h0 : l0 ≠ []) : l ≠ [] := by
  intro hl
  rw [hl] at hmap
  cases l0 with
  | nil => exact h0 rfl
  | cons y yt => simp at hmap

theorem distribWSpec_expand_comm (e t : Int) (h : Option Int) :
    ∀ (bs : List Box) (cfs : List Int) (prev : Int),
      distribWSpec e t prev (bs.map (fun b => (b.expand none h).1)) cfs =
        (distribWSpec e t prev bs cfs).map (fun b => (b.expand none h).1) := by
  cases h with
  | none =>
    intro bs cfs prev
    simp [box_expand_none_none]
  | some y => exact distribWSpec_map_comm e t y

/-- On a single-row grid whose children all share the grid's own minimum
height, the height block acts as a plain height match of every child (the
`VSplitBox` `matchheights` pass), followed by the offset update. -/
theorem grid_hmatch_single_row (g : GridBox) (bs : List Box) (h : Option Int)
    (hsub : g.subboxes = [bs])
    (hcr : g.cumrowfactors = [1])
    (hsr : g.sumrowfactors = 1)
    (hmh : ∀ b ∈ bs, b.minheight = g.box.minheight)
    (hok : axisOk h g.box.minheight = true) :
    gridHeightBlock h g =
      (gridUCO { g with subboxes := [bs.map (fun b => (b.expand none h).1)] }, none) := by
  cases h with
  | none =>
    have hmap : bs.map (fun b => (b.expand none none).1) = bs := by
      simp [box_expand_none_none]
    show (gridUCO g, none) = _
    rw [hmap, ← hsub]
  | some hv =>
    have hfun : ∀ b ∈ bs, b.expand none
        (some (b.minheight + (cumExpansion (hv - g.box.minheight) 1 1 - 0))) =
        b.expand none (some hv) := by
      intro b hb
      rw [cumExpansion_one, hmh b hb]
      have harith : g.box.minheight + (hv - g.box.minheight - 0) = hv := by ring
      rw [harith]
    have hne2 : ∀ b ∈ bs, (b.expand none (some hv)).2 = none := by
      intro b hb
      rw [box_expand_ok_iff]
      refine ⟨rfl, ?_⟩
      rw [hmh b hb]
      exact hok
    have htm : threadMatch (fun b => b.expand none
        (some (b.minheight + (cumExpansion (hv - g.box.minheight) 1 1 - 0)))) bs =
        (bs.map (fun b => (b.expand none (some hv)).1), none) := by
      rw [threadMatch_congr _ _ bs hfun]
      exact threadMatch_noerr _ bs hne2
    simp only [gridHeightBlock]
    rw [if_neg (show ¬ g.sumrowfactors = 0 from by rw [hsr]; exact one_ne_zero)]
    rw [hsr, hsub, hcr]
    have hrows : threadRows (hv - g.box.minheight) 1 0 [bs] [1] =
        ([bs.map (fun b => (b.expand none (some hv)).1)], none) := by
      simp only [threadRows, htm]
    rw [hrows]

/-- Simulation relation between a single-column `GridBox` (default column
factors, row factors the children's expand factors) and an `HSplitBox` with
`matchwidths`, all children sharing the composite's minimum width. -/
def HRel (g : GridBox) (s : HSplitBox) : Prop :=
  g.box = s.box ∧
  g.subboxes = s.subboxes.map (fun b => [b]) ∧
  s.matchwidths = true ∧
  g.cumcolfactors = [1] ∧
  g.sumcolfactors = 1 ∧
  g.cumrowfactors = accumulate (s.subboxes.map (fun b => b.expandfactor)) ∧
  g.sumrowfactors = (accumulate (s.subboxes.map (fun b => b.expandfactor))).getLastD 0 ∧
  s.subboxes ≠ [] ∧
  (∀ b ∈ s.subboxes, b.minwidth = g.box.minwidth)

/-- Simulation relation between a single-row `GridBox` (default row factors,
column factors the children's expand factors) and a `VSplitBox` with
`matchheights`: children share the composite's minimum height and the expand
factors are nonnegative with positive total. -/
def VRel (g : GridBox) (s : VSplitBox) : Prop :=
  g.box = s.box ∧
  g.subboxes = [s.subboxes] ∧
  s.matchheights = true ∧
  g.cumrowfactors = [1] ∧
  g.sumrowfactors = 1 ∧
  g.cumcolfactors = accumulate (s.subboxes.map (fun b => b.expandfactor)) ∧
  g.sumcolfactors = (accumulate (s.subboxes.map (fun b => b.expandfactor))).getLastD 0 ∧
  (∀ b ∈ s.subboxes, 0 ≤ b.expandfactor) ∧
  0 < (accumulate (s.subboxes.map (fun b => b.expandfactor))).getLastD 0 ∧
  (∀ b ∈ s.subboxes, b.minheight = g.box.minheight)

/-- Run a sequence of `expand` calls on a `GridBox`, collecting the per-call
error trace alongside the final state. -/
def gridRun : GridBox → List (Option Int × Option Int) → GridBox × List (Option LayoutError)
  | g, [] => (g, [])
  | g, c :: cs =>
    let r := GridBox.expand g c.1 c.2
    let rest := gridRun r.1 cs
    (rest.1, r.2 :: rest.2)

/-- Run a sequence of `expand` calls on an `HSplitBox` with its error trace. -/
def hsplitRun : HSplitBox → List (Option Int × Option Int) → HSplitBox × List (Option LayoutError)
  | s, [] => (s, [])
  | s, c :: cs =>
    let r := HSplitBox.expand s c.1 c.2
    let rest := hsplitRun r.1 cs
    (rest.1, r.2 :: rest.2)

/-- Run a sequence of `expand` calls on a `VSplitBox` with its error trace. -/
def vsplitRun : VSplitBox → List (Option Int × Option Int) → VSplitBox × List (Option LayoutError)
  | s, [] => (s, [])
  | s, c :: cs =>
    let r := VSplitBox.expand s c.1 c.2
    let rest := vsplitRun r.1 cs
    (rest.1, r.2 :: rest.2)

theorem HRel_update (g : GridBox) (s : HSplitBox) (hrel : HRel g s) (B : Box) (L : List Box)
    (hB : B.minwidth = g.box.minwidth)
    (hef : L.map (fun b => b.expandfactor) = s.subboxes.map (fun b => b.expandfactor))
    (hmw : L.map (fun b => b.minwidth) = s.subboxes.map (fun b => b.minwidth)) :
    HRel { g with subboxes := L.map (fun b => [b]), box := B }
         { s with subboxes := L, box := B } := by
  obtain ⟨h1, h2, h3, h4, h5, h6, h7, h8, h9⟩ := hrel
  refine ⟨rfl, rfl, h3, h4, h5, ?_, ?_, ?_, ?_⟩
  · show g.cumrowfactors = accumulate (L.map (fun b => b.expandfactor))
    rw [hef]
    exact h6
  · show g.sumrowfactors = (accumulate (L.map (fun b => b.expandfactor))).getLastD 0
    rw [hef]
    exact h7
  · exact ne_nil_of_map_eq (fun b => b.expandfactor) L s.subboxes hef h8
  · intro b hb
    show b.minwidth = B.minwidth
    rw [hB]
    exact forall_proj_of_map_eq (fun b => b.minwidth) g.box.minwidth L s.subboxes hmw h9 b hb

theorem VRel_update (g : GridBox) (s : VSplitBox) (hrel : VRel g s) (B : Box) (L : List Box)
    (hB : B.minheight = g.box.minheight)
    (hef : L.map (fun b => b.expandfactor) = s.subboxes.map (fun b => b.expandfactor))
    (hmh : L.map (fun b => b.minheight) = s.subboxes.map (fun b => b.minheight)) :
    VRel { g with subboxes := [L], box := B }
         { s with subboxes := L, box := B } := by
  obtain ⟨h1, h2, h3, h4, h5, h6, h7, h8, h9, h10⟩ := hrel
  refine ⟨rfl, rfl, h3, h4, h5, ?_, ?_, ?_, ?_, ?_⟩
  · show g.cumcolfactors = accumulate (L.map (fun b => b.expandfactor))
    rw [hef]
    exact h6
  · show g.sumcolfactors = (accumulate (L.map (fun b => b.expandfactor))).getLastD 0
    rw [hef]
    exact h7
  · exact forall_pred_of_map_eq (fun b => b.expandfactor) (fun x => 0 ≤ x) L s.subboxes hef h8
  · show 0 < (accumulate (L.map (fun b => b.expandfactor))).getLastD 0
    rw [hef]
    exact h9
  · intro b hb
    show b.minheight = B.minheight
    rw [hB]
    exact forall_proj_of_map_eq (fun b => b.minheight) g.box.minheight L s.subboxes hmh h10 b hb

/-- One `expand` call keeps a single-column grid and its `HSplitBox`
counterpart in lockstep: equal raise and the simulation relation preserved
(height argument not a literal `0`). -/
theorem hsplit_grid_step (g : GridBox) (s : HSplitBox) (w h : Option Int)
    (hrel : HRel g s) (hzero : h ≠ some 0) :
    (GridBox.expand g w h).2 = (HSplitBox.expand s w h).2 ∧
    HRel (GridBox.expand g w h).1 (HSplitBox.expand s w h).1 := by
  obtain ⟨hbox, hsub, hmw, hcc, hsc, hcr, hsr, hnil, hminw⟩ := hrel
  cases hrb : (s.box.expand w h).2 with
  | some err =>
    have hg : GridBox.expand g w h = (g, some err) := by
      simp only [GridBox.expand, hbox, hrb]
    have hs : HSplitBox.expand s w h = (s, some err) := by
      simp only [HSplitBox.expand, hrb]
    rw [hg, hs]
    exact ⟨rfl, hbox, hsub, hmw, hcc, hsc, hcr, hsr, hnil, hminw⟩
  | none =>
    have hminw' : ∀ b ∈ s.subboxes, b.minwidth = s.box.minwidth := by
      intro b hb
      rw [hminw b hb, hbox]
    cases w with
    | none =>
      have htm0 : threadMatch (fun b => b.expand none none) s.subboxes =
          (s.subboxes, none) :=
        threadMatch_id _ (fun b => box_expand_none_none b) s.subboxes
      have hs : HSplitBox.expand s none h =
          hsplitHeightPhase h { s with box := (s.box.expand none h).1 } := by
        simp only [HSplitBox.expand, hrb, hmw, if_true, htm0]
      have hg : GridBox.expand g none h =
          gridHeightBlock h { g with box := (s.box.expand none h).1 } := by
        simp only [GridBox.expand, hbox, hrb]
      obtain ⟨bs', e1, e2, hef, hmwmap⟩ :=
        hsplit_height_equiv { g with box := (s.box.expand none h).1 }
          { s with box := (s.box.expand none h).1 } h rfl hsub hcr hsr hzero
      refine ⟨?_, ?_⟩
      · rw [hg, hs, e1, e2]
      · rw [hg, hs, e1, e2]
        exact HRel_update g s ⟨hbox, hsub, hmw, hcc, hsc, hcr, hsr, hnil, hminw⟩ _ bs'
          (by rw [hbox]; exact (box_expand_statics s.box none h).1) hef hmwmap
    | some wv =>
      have hBmw : (s.box.expand (some wv) h).1.minwidth = s.box.minwidth :=
        (box_expand_statics s.box (some wv) h).1
      have htmeq : threadMatch (fun b => b.expand
          (some (b.minwidth + (cumExpansion (wv - s.box.minwidth) 1 1 - 0))) none)
          s.subboxes =
          threadMatch (fun b => b.expand (some wv) none) s.subboxes := by
        refine threadMatch_congr _ _ s.subboxes ?_
        intro b hb
        rw [cumExpansion_one, hminw' b hb]
        have h2 : s.box.minwidth + (wv - s.box.minwidth - 0) = wv := by ring
        rw [h2]
      have hefm : ((threadMatch (fun b => b.expand (some wv) none) s.subboxes).1).map
          (fun b => b.expandfactor) = s.subboxes.map (fun b => b.expandfactor) :=
        threadMatch_map _ _ (fun b => (box_expand_statics b (some wv) none).2.2.1) s.subboxes
      have hmwm : ((threadMatch (fun b => b.expand (some wv) none) s.subboxes).1).map
          (fun b => b.minwidth) = s.subboxes.map (fun b => b.minwidth) :=
        threadMatch_map _ _ (fun b => (box_expand_statics b (some wv) none).1) s.subboxes
      rcases htm2 : (threadMatch (fun b => b.expand (some wv) none) s.subboxes).2 with _ | err
      · -- the width match succeeds on both sides; the height phases correspond
        have hs : HSplitBox.expand s (some wv) h =
            hsplitHeightPhase h { s with box := (s.box.expand (some wv) h).1, subboxes := (threadMatch (fun b => b.expand (some wv) none) s.subboxes).1 } := by
          simp only [HSplitBox.expand, hrb, hmw, if_true, htm2]
        have hg : GridBox.expand g (some wv) h =
            gridHeightBlock h { g with box := (s.box.expand (some wv) h).1, subboxes := ((threadMatch (fun b => b.expand (some wv) none) s.subboxes).1).map (fun b => [b]) } := by
          simp only [GridBox.expand, hbox, hrb, hsub, hcc, hsc, hBmw]
          rw [colsOf_map_singleton s.subboxes hnil]
          rw [if_neg (show ¬ (1 : Int) = 0 from one_ne_zero)]
          rw [threadCols_one_column (wv - s.box.minwidth) 1 s.subboxes 1]
          rw [htmeq]
          simp only [htm2, colsOf_single_row]
        have hcr1 : g.cumrowfactors =
            accumulate (((threadMatch (fun b => b.expand (some wv) none) s.subboxes).1).map
              (fun b => b.expandfactor)) := by
          rw [hefm]
          exact hcr
        have hsr1 : g.sumrowfactors =
            (accumulate (((threadMatch (fun b => b.expand (some wv) none) s.subboxes).1).map
              (fun b => b.expandfactor))).getLastD 0 := by
          rw [hefm]
          exact hsr
        obtain ⟨bs', e1, e2, hef, hmwmap⟩ :=
          hsplit_height_equiv
            { g with box := (s.box.expand (some wv) h).1, subboxes := ((threadMatch (fun b => b.expand (some wv) none) s.subboxes).1).map (fun b => [b]) }
            { s with box := (s.box.expand (some wv) h).1, subboxes := (threadMatch (fun b => b.expand (some wv) none) s.subboxes).1 }
            h rfl rfl hcr1 hsr1 hzero
        refine ⟨?_, ?_⟩
        · rw [hg, hs, e1, e2]
        · rw [hg, hs, e1, e2]
          refine HRel_update g s ⟨hbox, hsub, hmw, hcc, hsc, hcr, hsr, hnil, hminw⟩ _ bs'
            (by rw [hbox]; exact hBmw) ?_ ?_
          · rw [hef]
            exact hefm
          · rw [hmwmap]
            exact hmwm
      · -- the width match raises identically on both sides
        have hs : HSplitBox.expand s (some wv) h =
            ({ s with box := (s.box.expand (some wv) h).1, subboxes := (threadMatch (fun b => b.expand (some wv) none) s.subboxes).1 }, some err) := by
          simp only [HSplitBox.expand, hrb, hmw, if_true, htm2]
        have hg : GridBox.expand g (some wv) h =
            ({ g with box := (s.box.expand (some wv) h).1, subboxes := ((threadMatch (fun b => b.expand (some wv) none) s.subboxes).1).map (fun b => [b]) }, some err) := by
          simp only [GridBox.expand, hbox, hrb, hsub, hcc, hsc, hBmw]
          rw [colsOf_map_singleton s.subboxes hnil]
          rw [if_neg (show ¬ (1 : Int) = 0 from one_ne_zero)]
          rw [threadCols_one_column (wv - s.box.minwidth) 1 s.subboxes 1]
          rw [htmeq]
          simp only [htm2, colsOf_single_row]
        refine ⟨?_, ?_⟩
        · rw [hg, hs]
        · rw [hg, hs]
          exact HRel_update g s ⟨hbox, hsub, hmw, hcc, hsc, hcr, hsr, hnil, hminw⟩ _ _
            (by rw [hbox]; exact hBmw) hefm hmwm

/-- One `expand` call keeps a single-row grid and its `VSplitBox` counterpart
in lockstep: neither composite pass can raise once the own box accepted the
call, and the width distribution commutes with the height match (width
argument not a literal `0`). -/
theorem vsplit_grid_step (g : GridBox) (s : VSplitBox) (w h : Option Int)
    (hrel : VRel g s) (hzero : w ≠ some 0) :
    (GridBox.expand g w h).2 = (VSplitBox.expand s w h).2 ∧
    VRel (GridBox.expand g w h).1 (VSplitBox.expand s w h).1 := by
  obtain ⟨hbox, hsub, hmh, hcr, hsr, hcc, hsc, hef0, htot, hminh⟩ := hrel
  cases hrb : (s.box.expand w h).2 with
  | some err =>
    have hg : GridBox.expand g w h = (g, some err) := by
      simp only [GridBox.expand, hbox, hrb]
    have hs : VSplitBox.expand s w h = (s, some err) := by
      simp only [VSplitBox.expand, hrb]
    rw [hg, hs]
    exact ⟨rfl, hbox, hsub, hmh, hcr, hsr, hcc, hsc, hef0, htot, hminh⟩
  | none =>
    have hok := (box_expand_ok_iff s.box w h).mp hrb
    have hminh' : ∀ b ∈ s.subboxes, b.minheight = s.box.minheight := by
      intro b hb
      rw [hminh b hb, hbox]
    have htm : threadMatch (fun b => b.expand none h) s.subboxes =
        (s.subboxes.map (fun b => (b.expand none h).1), none) := by
      refine threadMatch_noerr _ s.subboxes ?_
      intro b hb
      rw [box_expand_ok_iff]
      refine ⟨rfl, ?_⟩
      rw [hminh' b hb]
      exact hok.2
    have hbs1ef : (s.subboxes.map (fun b => (b.expand none h).1)).map
        (fun b => b.expandfactor) = s.subboxes.map (fun b => b.expandfactor) :=
      map_map_proj _ _ (fun b => (box_expand_statics b none h).2.2.1) s.subboxes
    have hbs1mh : (s.subboxes.map (fun b => (b.expand none h).1)).map
        (fun b => b.minheight) = s.subboxes.map (fun b => b.minheight) :=
      map_map_proj _ _ (fun b => (box_expand_statics b none h).2.1) s.subboxes
    have hnil : s.subboxes ≠ [] := by
      intro he
      rw [he] at htot
      simp [accumulate] at htot
    cases w with
    | none =>
      have hs : VSplitBox.expand s none h =
          (vsplitUCO { s with box := (s.box.expand none h).1, subboxes := s.subboxes.map (fun b => (b.expand none h).1) }, none) := by
        simp only [VSplitBox.expand, hrb, hmh, if_true, htm]
        rfl
      have hg : GridBox.expand g none h =
          gridHeightBlock h { g with box := (s.box.expand none h).1 } := by
        simp only [GridBox.expand, hbox, hrb]
      have hgm := grid_hmatch_single_row { g with box := (s.box.expand none h).1 }
        s.subboxes h hsub hcr hsr
        (by
          intro b hb
          show b.minheight = (s.box.expand none h).1.minheight
          rw [(box_expand_statics s.box none h).2.1]
          exact hminh' b hb)
        (by
          show axisOk h (s.box.expand none h).1.minheight = true
          rw [(box_expand_statics s.box none h).2.1]
          exact hok.2)
      have hucoG : gridUCO { g with box := (s.box.expand none h).1, subboxes := [s.subboxes.map (fun b => (b.expand none h).1)] } =
          { g with box := (s.box.expand none h).1, subboxes := [vsplitOffsets (s.box.expand none h).1.offset_x (s.box.expand none h).1.offset_y 0 (s.subboxes.map (fun b => (b.expand none h).1))] } := by
        have huco := gridUCO_single_row
          { g with box := (s.box.expand none h).1, subboxes := [s.subboxes.map (fun b => (b.expand none h).1)] }
          (s.subboxes.map (fun b => (b.expand none h).1)) rfl
        rw [show gridUCO { g with box := (s.box.expand none h).1, subboxes := [s.subboxes.map (fun b => (b.expand none h).1)] } =
          { g with box := (s.box.expand none h).1, subboxes := (gridUCO { g with box := (s.box.expand none h).1, subboxes := [s.subboxes.map (fun b => (b.expand none h).1)] }).subboxes } from rfl, huco]
      have hucoS : vsplitUCO { s with box := (s.box.expand none h).1, subboxes := s.subboxes.map (fun b => (b.expand none h).1) } =
          { s with box := (s.box.expand none h).1, subboxes := vsplitOffsets (s.box.expand none h).1.offset_x (s.box.expand none h).1.offset_y 0 (s.subboxes.map (fun b => (b.expand none h).1)) } := rfl
      refine ⟨?_, ?_⟩
      · rw [hg, hs, hgm]
      · rw [hg, hs, hgm, hucoG, hucoS]
        refine VRel_update g s ⟨hbox, hsub, hmh, hcr, hsr, hcc, hsc, hef0, htot, hminh⟩ _ _
          (by rw [(box_expand_statics s.box none h).2.1, hbox]) ?_ ?_
        · rw [vsplitOffsets_map (fun b => b.expandfactor) (fun b x y => rfl) _ _ _ _]
          exact hbs1ef
        · rw [vsplitOffsets_map (fun b => b.minheight) (fun b x y => rfl) _ _ _ _]
          exact hbs1mh
    | some wv =>
      have hwv : wv ≠ 0 := fun habs => hzero (by rw [habs])
      have hty : truthy (some wv) = true := truthy_some_ne wv hwv
      have hBmw : (s.box.expand (some wv) h).1.minwidth = s.box.minwidth :=
        (box_expand_statics s.box (some wv) h).1
      have hBmh : (s.box.expand (some wv) h).1.minheight = s.box.minheight :=
        (box_expand_statics s.box (some wv) h).2.1
      have he : 0 ≤ wv - s.box.minwidth := by
        have hw := hok.1
        unfold axisOk at hw
        rw [if_pos hty] at hw
        simp only [Option.getD_some, decide_eq_true_eq] at hw
        omega
      have hchain : List.Chain (· ≤ ·) 0
          (accumulate (s.subboxes.map (fun b => b.expandfactor))) := by
        have hc := accumulate_chain 0 le_rfl (s.subboxes.map (fun b => b.expandfactor))
          (by
            intro x hx
            obtain ⟨b, hb, hbx⟩ := List.mem_map.mp hx
            rw [← hbx]
            exact hef0 b hb)
        rwa [map_zero_add] at hc
      have htdw := threadDistribW_ok (wv - s.box.minwidth)
        ((accumulate (s.subboxes.map (fun b => b.expandfactor))).getLastD 0) he htot
        s.subboxes (accumulate (s.subboxes.map (fun b => b.expandfactor))) 0 le_rfl hchain
      rw [cumExpansion_zero] at htdw
      have htdwl : (threadDistribW (wv - s.box.minwidth)
          ((accumulate (s.subboxes.map (fun b => b.expandfactor))).getLastD 0) 0
          s.subboxes (accumulate (s.subboxes.map (fun b => b.expandfactor)))).1 =
          distribWSpec (wv - s.box.minwidth)
            ((accumulate (s.subboxes.map (fun b => b.expandfactor))).getLastD 0) 0
            s.subboxes (accumulate (s.subboxes.map (fun b => b.expandfactor))) := by
        rw [htdw]
      have htdw2 : (threadDistribW (wv - s.box.minwidth)
          ((accumulate (s.subboxes.map (fun b => b.expandfactor))).getLastD 0) 0
          s.subboxes (accumulate (s.subboxes.map (fun b => b.expandfactor)))).2 = none := by
        rw [htdw]
      have hWef : (distribWSpec (wv - s.box.minwidth)
          ((accumulate (s.subboxes.map (fun b => b.expandfactor))).getLastD 0) 0
          s.subboxes (accumulate (s.subboxes.map (fun b => b.expandfactor)))).map
          (fun b => b.expandfactor) = s.subboxes.map (fun b => b.expandfactor) := by
        rw [← htdwl]
        exact threadDistribW_map _ (fun b w2 h2 => (box_expand_statics b w2 h2).2.2.1) _ _
          s.subboxes _ 0
      have hWmh : (distribWSpec (wv - s.box.minwidth)
          ((accumulate (s.subboxes.map (fun b => b.expandfactor))).getLastD 0) 0
          s.subboxes (accumulate (s.subboxes.map (fun b => b.expandfactor)))).map
          (fun b => b.minheight) = s.subboxes.map (fun b => b.minheight) := by
        rw [← htdwl]
        exact threadDistribW_map _ (fun b w2 h2 => (box_expand_statics b w2 h2).2.1) _ _
          s.subboxes _ 0
      have hWne : distribWSpec (wv - s.box.minwidth)
          ((accumulate (s.subboxes.map (fun b => b.expandfactor))).getLastD 0) 0
          s.subboxes (accumulate (s.subboxes.map (fun b => b.expandfactor))) ≠ [] :=
        ne_nil_of_map_eq (fun b => b.expandfactor) _ s.subboxes hWef hnil
      have hcols1 : (threadCols (wv - s.box.minwidth)
          ((accumulate (s.subboxes.map (fun b => b.expandfactor))).getLastD 0) 0
          (s.subboxes.map (fun b => [b]))
          (accumulate (s.subboxes.map (fun b => b.expandfactor)))).1 =
          (distribWSpec (wv - s.box.minwidth)
            ((accumulate (s.subboxes.map (fun b => b.expandfactor))).getLastD 0) 0
            s.subboxes (accumulate (s.subboxes.map (fun b => b.expandfactor)))).map
            (fun b => [b]) := by
        rw [threadCols_singletons (wv - s.box.minwidth)
          ((accumulate (s.subboxes.map (fun b => b.expandfactor))).getLastD 0)
          s.subboxes (accumulate (s.subboxes.map (fun b => b.expandfactor))) 0, htdwl]
      have hcols2 : (threadCols (wv - s.box.minwidth)
          ((accumulate (s.subboxes.map (fun b => b.expandfactor))).getLastD 0) 0
          (s.subboxes.map (fun b => [b]))
          (accumulate (s.subboxes.map (fun b => b.expandfactor)))).2 = none := by
        rw [threadCols_singletons (wv - s.box.minwidth)
          ((accumulate (s.subboxes.map (fun b => b.expandfactor))).getLastD 0)
          s.subboxes (accumulate (s.subboxes.map (fun b => b.expandfactor))) 0, htdw2]
      have hg : GridBox.expand g (some wv) h =
          gridHeightBlock h { g with box := (s.box.expand (some wv) h).1, subboxes := [distribWSpec (wv - s.box.minwidth) ((accumulate (s.subboxes.map (fun b => b.expandfactor))).getLastD 0) 0 s.subboxes (accumulate (s.subboxes.map (fun b => b.expandfactor)))] } := by
        simp only [GridBox.expand, hbox, hrb, hsub, hcc, hsc, hBmw]
        rw [if_neg (ne_of_gt htot)]
        rw [colsOf_single_row s.subboxes]
        rw [hcols1, hcols2]
        rw [colsOf_map_singleton _ hWne]
      have hgm := grid_hmatch_single_row
        { g with box := (s.box.expand (some wv) h).1, subboxes := [distribWSpec (wv - s.box.minwidth) ((accumulate (s.subboxes.map (fun b => b.expandfactor))).getLastD 0) 0 s.subboxes (accumulate (s.subboxes.map (fun b => b.expandfactor)))] }
        (distribWSpec (wv - s.box.minwidth)
          ((accumulate (s.subboxes.map (fun b => b.expandfactor))).getLastD 0) 0
          s.subboxes (accumulate (s.subboxes.map (fun b => b.expandfactor)))) h rfl hcr hsr
        (by
          intro b hb
          show b.minheight = (s.box.expand (some wv) h).1.minheight
          rw [hBmh]
          exact forall_proj_of_map_eq (fun b => b.minheight) s.box.minheight _ s.subboxes
            hWmh hminh' b hb)
        (by
          show axisOk h (s.box.expand (some wv) h).1.minheight = true
          rw [hBmh]
          exact hok.2)
      have htdw1 := threadDistribW_ok (wv - s.box.minwidth)
        ((accumulate (s.subboxes.map (fun b => b.expandfactor))).getLastD 0) he htot
        (s.subboxes.map (fun b => (b.expand none h).1))
        (accumulate (s.subboxes.map (fun b => b.expandfactor))) 0 le_rfl hchain
      rw [cumExpansion_zero] at htdw1
      have htdw1l : (threadDistribW (wv - s.box.minwidth)
          ((accumulate (s.subboxes.map (fun b => b.expandfactor))).getLastD 0) 0
          (s.subboxes.map (fun b => (b.expand none h).1))
          (accumulate (s.subboxes.map (fun b => b.expandfactor)))).1 =
          distribWSpec (wv - s.box.minwidth)
            ((accumulate (s.subboxes.map (fun b => b.expandfactor))).getLastD 0) 0
            (s.subboxes.map (fun b => (b.expand none h).1))
            (accumulate (s.subboxes.map (fun b => b.expandfactor))) := by
        rw [htdw1]
      have htdw12 : (threadDistribW (wv - s.box.minwidth)
          ((accumulate (s.subboxes.map (fun b => b.expandfactor))).getLastD 0) 0
          (s.subboxes.map (fun b => (b.expand none h).1))
          (accumulate (s.subboxes.map (fun b => b.expandfactor)))).2 = none := by
        rw [htdw1]
      have hs : VSplitBox.expand s (some wv) h =
          (vsplitUCO { s with box := (s.box.expand (some wv) h).1, subboxes := distribWSpec (wv - s.box.minwidth) ((accumulate (s.subboxes.map (fun b => b.expandfactor))).getLastD 0) 0 (s.subboxes.map (fun b => (b.expand none h).1)) (accumulate (s.subboxes.map (fun b => b.expandfactor))) }, none) := by
        simp only [VSplitBox.expand, hrb, hmh, if_true, htm]
        simp only [vsplitWidthPhase, hty, if_true, Option.getD_some, hbs1ef, hBmw]
        rw [if_neg (ne_of_gt htot)]
        rw [htdw1l, htdw12]
      have hcomm : distribWSpec (wv - s.box.minwidth)
          ((accumulate (s.subboxes.map (fun b => b.expandfactor))).getLastD 0) 0
          (s.subboxes.map (fun b => (b.expand none h).1))
          (accumulate (s.subboxes.map (fun b => b.expandfactor))) =
          (distribWSpec (wv - s.box.minwidth)
            ((accumulate (s.subboxes.map (fun b => b.expandfactor))).getLastD 0) 0
            s.subboxes (accumulate (s.subboxes.map (fun b => b.expandfactor)))).map
            (fun b => (b.expand none h).1) :=
        distribWSpec_expand_comm (wv - s.box.minwidth)
          ((accumulate (s.subboxes.map (fun b => b.expandfactor))).getLastD 0) h
          s.subboxes (accumulate (s.subboxes.map (fun b => b.expandfactor))) 0
      have hucoS : vsplitUCO { s with box := (s.box.expand (some wv) h).1, subboxes := (distribWSpec (wv - s.box.minwidth) ((accumulate (s.subboxes.map (fun b => b.expandfactor))).getLastD 0) 0 s.subboxes (accumulate (s.subboxes.map (fun b => b.expandfactor)))).map (fun b => (b.expand none h).1) } =
          { s with box := (s.box.expand (some wv) h).1, subboxes := vsplitOffsets (s.box.expand (some wv) h).1.offset_x (s.box.expand (some wv) h).1.offset_y 0 ((distribWSpec (wv - s.box.minwidth) ((accumulate (s.subboxes.map (fun b => b.expandfactor))).getLastD 0) 0 s.subboxes (accumulate (s.subboxes.map (fun b => b.expandfactor)))).map (fun b => (b.expand none h).1)) } := rfl
      have hucoG : gridUCO { g with box := (s.box.expand (some wv) h).1, subboxes := [(distribWSpec (wv - s.box.minwidth) ((accumulate (s.subboxes.map (fun b => b.expandfactor))).getLastD 0) 0 s.subboxes (accumulate (s.subboxes.map (fun b => b.expandfactor)))).map (fun b => (b.expand none h).1)] } =
          { g with box := (s.box.expand (some wv) h).1, subboxes := [vsplitOffsets (s.box.expand (some wv) h).1.offset_x (s.box.expand (some wv) h).1.offset_y 0 ((distribWSpec (wv - s.box.minwidth) ((accumulate (s.subboxes.map (fun b => b.expandfactor))).getLastD 0) 0 s.subboxes (accumulate (s.subboxes.map (fun b => b.expandfactor)))).map (fun b => (b.expand none h).1))] } := by
        have huco := gridUCO_single_row
          { g with box := (s.box.expand (some wv) h).1, subboxes := [(distribWSpec (wv - s.box.minwidth) ((accumulate (s.subboxes.map (fun b => b.expandfactor))).getLastD 0) 0 s.subboxes (accumulate (s.subboxes.map (fun b => b.expandfactor)))).map (fun b => (b.expand none h).1)] }
          ((distribWSpec (wv - s.box.minwidth) ((accumulate (s.subboxes.map (fun b => b.expandfactor))).getLastD 0) 0 s.subboxes (accumulate (s.subboxes.map (fun b => b.expandfactor)))).map (fun b => (b.expand none h).1)) rfl
        rw [show gridUCO { g with box := (s.box.expand (some wv) h).1, subboxes := [(distribWSpec (wv - s.box.minwidth) ((accumulate (s.subboxes.map (fun b => b.expandfactor))).getLastD 0) 0 s.subboxes (accumulate (s.subboxes.map (fun b => b.expandfactor)))).map (fun b => (b.expand none h).1)] } =
          { g with box := (s.box.expand (some wv) h).1, subboxes := (gridUCO { g with box := (s.box.expand (some wv) h).1, subboxes := [(distribWSpec (wv - s.box.minwidth) ((accumulate (s.subboxes.map (fun b => b.expandfactor))).getLastD 0) 0 s.subboxes (accumulate (s.subboxes.map (fun b => b.expandfactor)))).map (fun b => (b.expand none h).1)] }).subboxes } from rfl, huco]
      refine ⟨?_, ?_⟩
      · rw [hg, hs, hgm]
      · rw [hg, hs, hgm, hcomm, hucoG, hucoS]
        refine VRel_update g s ⟨hbox, hsub, hmh, hcr, hsr, hcc, hsc, hef0, htot, hminh⟩ _ _
          (by rw [hBmh, hbox]) ?_ ?_
        · rw [vsplitOffsets_map (fun b => b.expandfactor) (fun b x y => rfl) _ _ _ _]
          rw [map_map_proj _ _ (fun b => (box_expand_statics b none h).2.2.1) _]
          exact hWef
        · rw [vsplitOffsets_map (fun b => b.minheight) (fun b x y => rfl) _ _ _ _]
          rw [map_map_proj _ _ (fun b => (box_expand_statics b none h).2.1) _]
          exact hWmh

theorem hsplit_grid_run (calls : List (Option Int × Option Int)) :
    ∀ (g : GridBox) (s : HSplitBox), HRel g s → (∀ c ∈ calls, c.2 ≠ some 0) →
      (gridRun g calls).2 = (hsplitRun s calls).2 ∧
      HRel (gridRun g calls).1 (hsplitRun s calls).1 := by
  induction calls with
  | nil =>
    intro g s hrel _
    exact ⟨rfl, hrel⟩
  | cons c cs ih =>
    intro g s hrel hcalls
    have hstep := hsplit_grid_step g s c.1 c.2 hrel (hcalls c (by simp))
    have hrest := ih (GridBox.expand g c.1 c.2).1 (HSplitBox.expand s c.1 c.2).1 hstep.2
      (fun c2 h2 => hcalls c2 (by simp [h2]))
    refine ⟨?_, ?_⟩
    · simp only [gridRun, hsplitRun]
      exact congrArg₂ List.cons hstep.1 hrest.1
    · simp only [gridRun, hsplitRun]
      exact hrest.2

theorem vsplit_grid_run (calls : List (Option Int × Option Int)) :
    ∀ (g : GridBox) (s : VSplitBox), VRel g s → (∀ c ∈ calls, c.1 ≠ some 0) →
      (gridRun g calls).2 = (vsplitRun s calls).2 ∧
      VRel (gridRun g calls).1 (vsplitRun s calls).1 := by
  induction calls with
  | nil =>
    intro g s hrel _
    exact ⟨rfl, hrel⟩
  | cons c cs ih =>
    intro g s hrel hcalls
    have hstep := vsplit_grid_step g s c.1 c.2 hrel (hcalls c (by simp))
    have hrest := ih (GridBox.expand g c.1 c.2).1 (VSplitBox.expand s c.1 c.2).1 hstep.2
      (fun c2 h2 => hcalls c2 (by simp [h2]))
    refine ⟨?_, ?_⟩
    · simp only [gridRun, vsplitRun]
      exact congrArg₂ List.cons hstep.1 hrest.1
    · simp only [gridRun, vsplitRun]
      exact hrest.2

theorem map_expand_exact_width_id (bs : List Box) (Mw : Int)
    (hmw : ∀ b ∈ bs, b.minwidth = Mw) (hw : ∀ b ∈ bs, b.width = Mw) :
    bs.map (fun b => (b.expand (some Mw) none).1) = bs := by
  induction bs with
  | nil => rfl
  | cons b bt ih =>
    simp only [List.map_cons]
    rw [box_expand_exact_width b Mw (hmw b (by simp)) (hw b (by simp)),
      ih (fun z hz => hmw z (by simp [hz])) (fun z hz => hw z (by simp [hz]))]

theorem map_expand_exact_height_id (bs : List Box) (Mh : Int)
    (hmh : ∀ b ∈ bs, b.minheight = Mh) (hh : ∀ b ∈ bs, b.height = Mh) :
    bs.map (fun b => (b.expand none (some Mh)).1) = bs := by
  induction bs with
  | nil => rfl
  | cons b bt ih =>
    simp only [List.map_cons]
    rw [box_expand_exact_height b Mh (hmh b (by simp)) (hh b (by simp)),
      ih (fun z hz => hmh z (by simp [hz])) (fun z hz => hh z (by simp [hz]))]

/-- `GridBox.__init__` on a single column of fresh equal-minwidth children
with default column factors establishes the simulation relation with
`HSplitBox.__init__` over the same children with `matchwidths=True`. -/
theorem hsplit_grid_init (bs : List Box) (Mw : Int) (hne : bs ≠ [])
    (heq : ∀ b ∈ bs, b.minwidth = Mw)
    (hfresh : ∀ b ∈ bs, b.width = b.minwidth ∧ b.height = b.minheight) :
    HRel (gridInit (bs.map (fun b => [b])) none (some (bs.map (fun b => b.expandfactor))))
      (hsplitInit bs true 1) := by
  have hmapne : bs.map (fun b => b.minwidth) ≠ [] := by
    cases bs with
    | nil => exact absurd rfl hne
    | cons b bt => simp
  have hlm : listMax (bs.map (fun b => b.minwidth)) = Mw := by
    refine listMax_const Mw _ hmapne ?_
    intro x hx
    obtain ⟨b, hb, hbx⟩ := List.mem_map.mp hx
    rw [← hbx]
    exact heq b hb
  have hw : ∀ b ∈ bs, b.width = Mw := by
    intro b hb
    rw [(hfresh b hb).1]
    exact heq b hb
  have hoffmw : (hsplitOffsets
      (boxInit Mw ((bs.map (fun b => b.minheight)).sum) 1).offset_x
      (boxInit Mw ((bs.map (fun b => b.minheight)).sum) 1).offset_y 0 bs).map
      (fun b => b.minwidth) = bs.map (fun b => b.minwidth) :=
    hsplitOffsets_map (fun b => b.minwidth) (fun b x y => rfl) _ _ bs 0
  have hoffw : (hsplitOffsets
      (boxInit Mw ((bs.map (fun b => b.minheight)).sum) 1).offset_x
      (boxInit Mw ((bs.map (fun b => b.minheight)).sum) 1).offset_y 0 bs).map
      (fun b => b.width) = bs.map (fun b => b.width) :=
    hsplitOffsets_map (fun b => b.width) (fun b x y => rfl) _ _ bs 0
  have hoffwM : ∀ b2 ∈ hsplitOffsets
      (boxInit Mw ((bs.map (fun b => b.minheight)).sum) 1).offset_x
      (boxInit Mw ((bs.map (fun b => b.minheight)).sum) 1).offset_y 0 bs, b2.width = Mw :=
    forall_proj_of_map_eq (fun b => b.width) Mw _ bs hoffw hw
  have hoffmwM : ∀ b2 ∈ hsplitOffsets
      (boxInit Mw ((bs.map (fun b => b.minheight)).sum) 1).offset_x
      (boxInit Mw ((bs.map (fun b => b.minheight)).sum) 1).offset_y 0 bs, b2.minwidth = Mw :=
    forall_proj_of_map_eq (fun b => b.minwidth) Mw _ bs hoffmw heq
  have hsI : hsplitInit bs true 1 =
      { subboxes := hsplitOffsets
          (boxInit Mw ((bs.map (fun b => b.minheight)).sum) 1).offset_x
          (boxInit Mw ((bs.map (fun b => b.minheight)).sum) 1).offset_y 0 bs,
        matchwidths := true,
        box := boxInit Mw ((bs.map (fun b => b.minheight)).sum) 1 } := by
    simp only [hsplitInit, hsplitUCO, hlm, if_true]
    rw [show (boxInit Mw ((bs.map (fun b => b.minheight)).sum) 1).minwidth = Mw from rfl]
    rw [map_expand_exact_width_id _ Mw hoffmwM hoffwM]
  have hid : ∀ a ∈ bs,
      (fun (row : List Box) (h2 : Int) =>
        row.map (fun b => (b.expand none (some h2)).1)) [a] a.minheight = [a] := by
    intro a ha
    simp only [List.map_cons, List.map_nil]
    rw [box_expand_exact_height a a.minheight rfl (hfresh a ha).2]
  have hgI : gridInit (bs.map (fun b => [b])) none
      (some (bs.map (fun b => b.expandfactor))) =
      gridUCO
        { subboxes := bs.map (fun b => [b]), colfactors := [1], rowfactors := bs.map (fun b => b.expandfactor), colwidths := [Mw], rowheights := bs.map (fun b => b.minheight), cumcolfactors := [1], cumrowfactors := accumulate (bs.map (fun b => b.expandfactor)), sumcolfactors := 1, sumrowfactors := (accumulate (bs.map (fun b => b.expandfactor))).getLastD 0, box := boxInit Mw ((bs.map (fun b => b.minheight)).sum) 1 } := by
    simp only [gridInit, Option.getD_none, Option.getD_some]
    rw [colsOf_map_singleton bs hne]
    simp only [List.map_cons, List.map_nil, List.map_map]
    rw [hlm]
    rw [show List.map ((fun row => listMax (List.map (fun b => b.minheight) row)) ∘
      fun b => [b]) bs = bs.map (fun b => b.minheight) from
      List.map_congr_left (fun b _ => rfl)]
    simp only [zipWithKeep]
    rw [map_expand_exact_width_id bs Mw heq hw]
    rw [colsOf_single_row bs]
    rw [zipWithKeep_maps _ (fun b => [b]) (fun b => b.minheight) bs hid]
    rw [show ([Mw] : List Int).sum = Mw from by simp]
    rfl
  rw [hgI, hsI]
  refine ⟨rfl, ?_, rfl, rfl, rfl, ?_, ?_, ?_, ?_⟩
  · rw [gridUCO_single_col _ bs rfl]
  · show accumulate (bs.map (fun b => b.expandfactor)) = _
    rw [hsplitOffsets_map (fun b => b.expandfactor) (fun b x y => rfl) _ _ bs 0]
  · show (accumulate (bs.map (fun b => b.expandfactor))).getLastD 0 = _
    rw [hsplitOffsets_map (fun b => b.expandfactor) (fun b x y => rfl) _ _ bs 0]
  · exact ne_nil_of_map_eq (fun b => b.expandfactor) _ bs
      (hsplitOffsets_map (fun b => b.expandfactor) (fun b x y => rfl) _ _ bs 0) hne
  · intro b hb
    exact hoffmwM b hb

/-- `GridBox.__init__` on a single row of fresh equal-minheight children with
default row factors establishes the simulation relation with
`VSplitBox.__init__` over the same children with `matchheights=True`,
provided the expand factors are nonnegative with positive total. -/
theorem vsplit_grid_init (bs : List Box) (Mh : Int) (hne : bs ≠ [])
    (heq : ∀ b ∈ bs, b.minheight = Mh)
    (hfresh : ∀ b ∈ bs, b.width = b.minwidth ∧ b.height = b.minheight)
    (hef0 : ∀ b ∈ bs, 0 ≤ b.expandfactor)
    (htot : 0 < (accumulate (bs.map (fun b => b.expandfactor))).getLastD 0) :
    VRel (gridInit [bs] (some (bs.map (fun b => b.expandfactor))) none)
      (vsplitInit bs true 1) := by
  have hmapne : bs.map (fun b => b.minheight) ≠ [] := by
    cases bs with
    | nil => exact absurd rfl hne
    | cons b bt => simp
  have hlmh : listMax (bs.map (fun b => b.minheight)) = Mh := by
    refine listMax_const Mh _ hmapne ?_
    intro x hx
    obtain ⟨b, hb, hbx⟩ := List.mem_map.mp hx
    rw [← hbx]
    exact heq b hb
  have hh : ∀ b ∈ bs, b.height = Mh := by
    intro b hb
    rw [(hfresh b hb).2]
    exact heq b hb
  have hoffmh : (vsplitOffsets
      (boxInit ((bs.map (fun b => b.minwidth)).sum) Mh 1).offset_x
      (boxInit ((bs.map (fun b => b.minwidth)).sum) Mh 1).offset_y 0 bs).map
      (fun b => b.minheight) = bs.map (fun b => b.minheight) :=
    vsplitOffsets_map (fun b => b.minheight) (fun b x y => rfl) _ _ bs 0
  have hoffh : (vsplitOffsets
      (boxInit ((bs.map (fun b => b.minwidth)).sum) Mh 1).offset_x
      (boxInit ((bs.map (fun b => b.minwidth)).sum) Mh 1).offset_y 0 bs).map
      (fun b => b.height) = bs.map (fun b => b.height) :=
    vsplitOffsets_map (fun b => b.height) (fun b x y => rfl) _ _ bs 0
  have hoffmhM : ∀ b2 ∈ vsplitOffsets
      (boxInit ((bs.map (fun b => b.minwidth)).sum) Mh 1).offset_x
      (boxInit ((bs.map (fun b => b.minwidth)).sum) Mh 1).offset_y 0 bs, b2.minheight = Mh :=
    forall_proj_of_map_eq (fun b => b.minheight) Mh _ bs hoffmh heq
  have hoffhM : ∀ b2 ∈ vsplitOffsets
      (boxInit ((bs.map (fun b => b.minwidth)).sum) Mh 1).offset_x
      (boxInit ((bs.map (fun b => b.minwidth)).sum) Mh 1).offset_y 0 bs, b2.height = Mh :=
    forall_proj_of_map_eq (fun b => b.height) Mh _ bs hoffh hh
  have hsI : vsplitInit bs true 1 =
      { subboxes := vsplitOffsets
          (boxInit ((bs.map (fun b => b.minwidth)).sum) Mh 1).offset_x
          (boxInit ((bs.map (fun b => b.minwidth)).sum) Mh 1).offset_y 0 bs,
        matchheights := true,
        box := boxInit ((bs.map (fun b => b.minwidth)).sum) Mh 1 } := by
    simp only [vsplitInit, vsplitUCO, hlmh, if_true]
    rw [show (boxInit ((bs.map (fun b => b.minwidth)).sum) Mh 1).minheight = Mh from rfl]
    rw [map_expand_exact_height_id _ Mh hoffmhM hoffhM]
  have hidw : ∀ a ∈ bs,
      (fun (col : List Box) (w2 : Int) =>
        col.map (fun b => (b.expand (some w2) none).1)) [a] a.minwidth = [a] := by
    intro a ha
    simp only [List.map_cons, List.map_nil]
    rw [box_expand_exact_width a a.minwidth rfl (hfresh a ha).1]
  have hgI : gridInit [bs] (some (bs.map (fun b => b.expandfactor))) none =
      gridUCO
        { subboxes := [bs], colfactors := bs.map (fun b => b.expandfactor), rowfactors := [1], colwidths := bs.map (fun b => b.minwidth), rowheights := [Mh], cumcolfactors := accumulate (bs.map (fun b => b.expandfactor)), cumrowfactors := [1], sumcolfactors := (accumulate (bs.map (fun b => b.expandfactor))).getLastD 0, sumrowfactors := 1, box := boxInit ((bs.map (fun b => b.minwidth)).sum) Mh 1 } := by
    simp only [gridInit, Option.getD_none, Option.getD_some]
    rw [colsOf_single_row bs]
    simp only [List.map_cons, List.map_nil, List.map_map]
    rw [hlmh]
    rw [show List.map ((fun col => listMax (List.map (fun b => b.minwidth) col)) ∘
      fun b => [b]) bs = bs.map (fun b => b.minwidth) from
      List.map_congr_left (fun b _ => rfl)]
    rw [zipWithKeep_maps _ (fun b => [b]) (fun b => b.minwidth) bs hidw]
    rw [colsOf_map_singleton bs hne]
    simp only [zipWithKeep]
    rw [map_expand_exact_height_id bs Mh heq hh]
    rw [show ([Mh] : List Int).sum = Mh from by simp]
    rfl
  rw [hgI, hsI]
  refine ⟨rfl, ?_, rfl, rfl, rfl, ?_, ?_, ?_, ?_, ?_⟩
  · rw [gridUCO_single_row _ bs rfl]
  · show accumulate (bs.map (fun b => b.expandfactor)) = _
    rw [vsplitOffsets_map (fun b => b.expandfactor) (fun b x y => rfl) _ _ bs 0]
  · show (accumulate (bs.map (fun b => b.expandfactor))).getLastD 0 = _
    rw [vsplitOffsets_map (fun b => b.expandfactor) (fun b x y => rfl) _ _ bs 0]
  · exact forall_pred_of_map_eq (fun b => b.expandfactor) (fun x => 0 ≤ x) _ bs
      (vsplitOffsets_map (fun b => b.expandfactor) (fun b x y => rfl) _ _ bs 0) hef0
  · show 0 < (accumulate ((vsplitOffsets _ _ 0 bs).map (fun b => b.expandfactor))).getLastD 0
    rw [vsplitOffsets_map (fun b => b.expandfactor) (fun b x y => rfl) _ _ bs 0]
    exact htot
  · intro b hb
    exact hoffmhM b hb

/-- **C9.** A `VSplitBox` with `matchheights=True` is behaviorally subsumed
by a single-row `GridBox` over the same children with column factors the
children's expand factors, and an `HSplitBox` with `matchwidths=True` by a
single-column `GridBox` with row factors the children's expand factors —
*under the conditions* that the children are fresh and nonempty, share the
composite's minimum along the matched axis (equal minwidths for `HSplitBox`,
equal minheights for `VSplitBox`), no call passes a literal `0` on the
distribution axis, and (for the `VSplitBox` direction) the expand factors
are nonnegative with positive total: then any same sequence of `expand`
calls yields the same error trace, the same own box, and the same children
(sizes and offsets alike).  Without the equal-minima condition the
children's cross-axis sizes diverge (see the counterexample). -/
theorem split_grid_equivalence (Mw Mh : Int) (bs : List Box)
    (calls : List (Option Int × Option Int)) (hne : bs ≠ [])
    (hfresh : ∀ b ∈ bs, b.width = b.minwidth ∧ b.height = b.minheight) :
    ((∀ b ∈ bs, b.minwidth = Mw) → (∀ c ∈ calls, c.2 ≠ some 0) →
      (gridRun (gridInit (bs.map (fun b => [b])) none
          (some (bs.map (fun b => b.expandfactor)))) calls).2 =
        (hsplitRun (hsplitInit bs true 1) calls).2 ∧
      (gridRun (gridInit (bs.map (fun b => [b])) none
          (some (bs.map (fun b => b.expandfactor)))) calls).1.box =
        (hsplitRun (hsplitInit bs true 1) calls).1.box ∧
      (gridRun (gridInit (bs.map (fun b => [b])) none
          (some (bs.map (fun b => b.expandfactor)))) calls).1.subboxes =
        ((hsplitRun (hsplitInit bs true 1) calls).1.subboxes).map (fun b => [b])) ∧
    ((∀ b ∈ bs, b.minheight = Mh) → (∀ b ∈ bs, 0 ≤ b.expandfactor) →
     0 < (accumulate (bs.map (fun b => b.expandfactor))).getLastD 0 →
     (∀ c ∈ calls, c.1 ≠ some 0) →
      (gridRun (gridInit [bs] (some (bs.map (fun b => b.expandfactor))) none) calls).2 =
        (vsplitRun (vsplitInit bs true 1) calls).2 ∧
      (gridRun (gridInit [bs] (some (bs.map (fun b => b.expandfactor))) none) calls).1.box =
        (vsplitRun (vsplitInit bs true 1) calls).1.box ∧
      (gridRun (gridInit [bs] (some (bs.map (fun b => b.expandfactor))) none) calls).1.subboxes =
        [(vsplitRun (vsplitInit bs true 1) calls).1.subboxes]) := by
  constructor
  · intro heq hcalls
    have hrun := hsplit_grid_run calls _ _ (hsplit_grid_init bs Mw hne heq hfresh) hcalls
    exact ⟨hrun.1, hrun.2.1, hrun.2.2.1⟩
  · intro heq hef0 htot hcalls
    have hrun := vsplit_grid_run calls _ _
      (vsplit_grid_init bs Mh hne heq hfresh hef0 htot) hcalls
    exact ⟨hrun.1, hrun.2.1, hrun.2.2.1⟩

/-- Witness: two fresh `2×3` children with expand factors `1` and `5`, run
through `expand(10, 9)` then `expand(None, 12)` — both directions stay in
lockstep. -/
theorem split_grid_equivalence_witness :
    ((gridRun (gridInit ([boxInit 2 3 1, boxInit 2 3 5].map (fun b => [b])) none
        (some ([boxInit 2 3 1, boxInit 2 3 5].map (fun b => b.expandfactor))))
        [(some 10, some 9), (none, some 12)]).2 =
      (hsplitRun (hsplitInit [boxInit 2 3 1, boxInit 2 3 5] true 1)
        [(some 10, some 9), (none, some 12)]).2 ∧
     (gridRun (gridInit ([boxInit 2 3 1, boxInit 2 3 5].map (fun b => [b])) none
        (some ([boxInit 2 3 1, boxInit 2 3 5].map (fun b => b.expandfactor))))
        [(some 10, some 9), (none, some 12)]).1.box =
      (hsplitRun (hsplitInit [boxInit 2 3 1, boxInit 2 3 5] true 1)
        [(some 10, some 9), (none, some 12)]).1.box ∧
     (gridRun (gridInit ([boxInit 2 3 1, boxInit 2 3 5].map (fun b => [b])) none
        (some ([boxInit 2 3 1, boxInit 2 3 5].map (fun b => b.expandfactor))))
        [(some 10, some 9), (none, some 12)]).1.subboxes =
      ((hsplitRun (hsplitInit [boxInit 2 3 1, boxInit 2 3 5] true 1)
        [(some 10, some 9), (none, some 12)]).1.subboxes).map (fun b => [b])) ∧
    ((gridRun (gridInit [[boxInit 2 3 1, boxInit 2 3 5]]
        (some ([boxInit 2 3 1, boxInit 2 3 5].map (fun b => b.expandfactor))) none)
        [(some 10, some 9), (none, some 12)]).2 =
      (vsplitRun (vsplitInit [boxInit 2 3 1, boxInit 2 3 5] true 1)
        [(some 10, some 9), (none, some 12)]).2 ∧
     (gridRun (gridInit [[boxInit 2 3 1, boxInit 2 3 5]]
        (some ([boxInit 2 3 1, boxInit 2 3 5].map (fun b => b.expandfactor))) none)
        [(some 10, some 9), (none, some 12)]).1.box =
      (vsplitRun (vsplitInit [boxInit 2 3 1, boxInit 2 3 5] true 1)
        [(some 10, some 9), (none, some 12)]).1.box ∧
     (gridRun (gridInit [[boxInit 2 3 1, boxInit 2 3 5]]
        (some ([boxInit 2 3 1, boxInit 2 3 5].map (fun b => b.expandfactor))) none)
        [(some 10, some 9), (none, some 12)]).1.subboxes =
      [(vsplitRun (vsplitInit [boxInit 2 3 1, boxInit 2 3 5] true 1)
        [(some 10, some 9), (none, some 12)]).1.subboxes]) := by
  have h := split_grid_equivalence 2 3 [boxInit 2 3 1, boxInit 2 3 5]
    [(some 10, some 9), (none, some 12)] (by decide) (by decide)
  exact ⟨h.1 (by decide) (by decide), h.2 (by decide) (by decide) (by decide) (by decide)⟩

/-- Counterexample to the unconditional claim: children with unequal minimum
heights start in identical layouts under both composites, yet the very same
`expand(None, 12)` leaves heights `[7, 12]` under the single-row grid (child
minimum plus row expansion) but `[12, 12]` under the `VSplitBox` (height
match). -/
theorem vsplit_grid_divergence_counterexample :
    (gridInit [[boxInit 1 5 1, boxInit 1 10 1]] (some [1, 1]) none).box =
      (vsplitInit [boxInit 1 5 1, boxInit 1 10 1] true 1).box ∧
    (gridInit [[boxInit 1 5 1, boxInit 1 10 1]] (some [1, 1]) none).subboxes =
      [(vsplitInit [boxInit 1 5 1, boxInit 1 10 1] true 1).subboxes] ∧
    (gridRun (gridInit [[boxInit 1 5 1, boxInit 1 10 1]] (some [1, 1]) none)
        [(none, some 12)]).2 = [none] ∧
    (vsplitRun (vsplitInit [boxInit 1 5 1, boxInit 1 10 1] true 1)
        [(none, some 12)]).2 = [none] ∧
    ((gridRun (gridInit [[boxInit 1 5 1, boxInit 1 10 1]] (some [1, 1]) none)
        [(none, some 12)]).1.subboxes.headD []).map (fun b => b.height) = [7, 12] ∧
    ((vsplitRun (vsplitInit [boxInit 1 5 1, boxInit 1 10 1] true 1)
        [(none, some 12)]).1.subboxes).map (fun b => b.height) = [12, 12] := by
  decide
